import Mathlib

/-!
The message broker of package chatcore and the validation functions of
packages userdomain, security and models

A shallow embedding of `labs/lab02/backend/chatcore/chatcore.go`, of
`labs/lab05/backend/userdomain/user.go`, of
`labs/lab05/backend/security/password.go` and of
`labs/lab04/backend/models/category.go`.

The broker:

* A Go channel of messages is a bounded FIFO buffer (`Chan`): its queued
  messages and its capacity.  Channels are reference values, so the delivery
  channels live in a store indexed by address and the registry holds
  references (`ChanRef`); the nil channel is the reference `none`.  Two
  identities may hold the same reference.
* The package never closes a channel, so every channel of the store is an
  open one.
* The methods are executed one at a time on the broker state (the mutex and
  the channel runtime make each of them atomic with respect to the state
  they touch); the choice a `select` makes between several ready cases is an
  explicit argument.  No consumer takes a step while a method runs, so a
  send proceeds exactly when the buffer has room.
* `NewBroker` is the only constructor: the input queue it makes has
  capacity 100, which no method changes.

The validation functions: a Go string is a `String`, a sequence of
characters with a UTF-8 encoding; `utf8.RuneCountInString` is the number of
its characters and `len` the number of bytes of its encoding.  An error is
its message, or a constructor named after what it says; nil is `none`.
-/

namespace chatcore

/-- The struct `Message`. -/
structure Message where
  Sender : String
  Recipient : String
  Content : String
  Broadcast : Bool
  Timestamp : Int
  deriving DecidableEq, Repr

/-- The two error values of package `context` that the broker returns. -/
inductive GoError where
  | Canceled
  | DeadlineExceeded
  deriving DecidableEq, Repr

/-- A buffered channel of messages: the queued messages, oldest first, and
the capacity given to `make`. -/
structure Chan where
  buf : List Message
  cap : Nat
  deriving DecidableEq, Repr

/-- A channel value: `none` is the nil channel, `some a` the channel at
address `a` of the store. -/
abbrev ChanRef := Option Nat

/-- The store of delivery channels, by address. -/
abbrev Store := Nat → Chan

/-- The map `users`: one entry per key.  The order of the list is the order
in which a `range` visits the entries. -/
abbrev Registry := List (String × ChanRef)

/-- The struct `Broker`, with the store of the channels that `users` refers
to.  `ctx` is `ctx.Err()`: `none` until the context fires.  `done` tells
whether a receive from the channel `done` is ready. -/
structure Broker where
  ctx : Option GoError
  input : Chan
  users : Registry
  done : Bool
  chans : Store

/-- The channel `make(chan Message, n)`. -/
def makeChan (n : Nat) : Chan := { buf := [], cap := n }

/-- Whether a send on the channel can proceed at once: its buffer has room. -/
def Chan.canSend (c : Chan) : Bool := decide (c.buf.length < c.cap)

/-- The send `c <- msg` when it proceeds. -/
def Chan.push (c : Chan) (msg : Message) : Chan := { c with buf := c.buf ++ [msg] }

/-- The statement `select { case c <- msg: default: }`. -/
def Chan.trySend (c : Chan) (msg : Message) : Chan :=
  if c.canSend then c.push msg else c

/-- The statement `select { case recvChan <- msg: default: }` on a channel
value: a send on the nil channel is never ready, so the default case runs. -/
def sendTo (chans : Store) (recvChan : ChanRef) (msg : Message) : Store :=
  match recvChan with
  | none => chans
  | some a => Function.update chans a ((chans a).trySend msg)

/-- The index expression `users[id]` in its two-value form: `none` when
the key is absent. -/
def lookup : Registry → String → Option ChanRef
  | [], _ => none
  | (k, v) :: rest, id => if k = id then some v else lookup rest id

/-- The assignment `users[id] = recv`. -/
def assign : Registry → String → ChanRef → Registry
  | [], id, recv => [(id, recv)]
  | (k, v) :: rest, id, recv =>
    if k = id then (id, recv) :: rest else (k, v) :: assign rest id recv

/-- The call `delete(users, id)`. -/
def delete (users : Registry) (id : String) : Registry :=
  users.filter (fun e => decide (e.1 ≠ id))

/-- The registry is a map: no key occurs twice. -/
def keysNodup (users : Registry) : Prop := (users.map Prod.fst).Nodup

instance (users : Registry) : Decidable (keysNodup users) := by
  unfold keysNodup; infer_instance

/-- Distinct identities map to distinct channels. -/
def distinctChans (users : Registry) : Prop :=
  ∀ i j a, lookup users i = some (some a) → lookup users j = some (some a) → i = j

/-- The function `NewBroker`. -/
def NewBroker (ctx : Option GoError) (chans : Store) : Broker :=
  { ctx := ctx, input := makeChan 100, users := [], done := false, chans := chans }

/-- The loop `for _, recvChan := range b.users { select { ... } }`. -/
def fanOut (msg : Message) : Registry → Store → Store
  | [], chans => chans
  | (_, recvChan) :: rest, chans => fanOut msg rest (sendTo chans recvChan msg)

/-- The method `routeMessage`. -/
def routeMessage (b : Broker) (msg : Message) : Broker :=
  if msg.Broadcast then
    { b with chans := fanOut msg b.users b.chans }
  else
    match lookup b.users msg.Recipient with
    | some recvChan => { b with chans := sendTo b.chans recvChan msg }
    | none => b

/-- The method `SendMessage`: the error returned (`none` is nil) and the
state afterwards.  `pick` is the choice of the second `select` when both the
send and `ctx.Done()` are ready. -/
def SendMessage (pick : Bool) (b : Broker) (msg : Message) : Option GoError × Broker :=
  match b.ctx with
  | some err => (some err, b)
  | none =>
    match b.input.canSend, b.ctx with
    | true, none => (none, { b with input := b.input.push msg })
    | true, some err =>
      if pick then (none, { b with input := b.input.push msg }) else (some err, b)
    | false, some err => (some err, b)
    | false, none => (some GoError.DeadlineExceeded, b)

/-- The method `RegisterUser`. -/
def RegisterUser (b : Broker) (userID : String) (recv : ChanRef) : Broker :=
  { b with users := assign b.users userID recv }

/-- The method `UnregisterUser`. -/
def UnregisterUser (b : Broker) (userID : String) : Broker :=
  { b with users := delete b.users userID }

/-- A case of the `select` in `Run`. -/
inductive Case where
  | input
  | ctxDone
  | done
  deriving DecidableEq, Repr

/-- Whether a case of the `select` in `Run` is ready. -/
def ready (b : Broker) : Case → Bool
  | Case.input => !b.input.buf.isEmpty
  | Case.ctxDone => b.ctx.isSome
  | Case.done => b.done

/-- What one iteration of the loop in `Run` does: it calls `routeMessage`
on the message received and goes on, or it returns. -/
inductive Iter where
  | routes (msg : Message) (b : Broker)
  | returns (b : Broker)

/-- One iteration of the loop in `Run` whose `select` takes the case `c`;
`none` when `c` is not ready. -/
def iterate (b : Broker) (c : Case) : Option Iter :=
  if ready b c then
    match c with
    | Case.input =>
      match b.input.buf with
      | [] => none
      | msg :: rest =>
        some (Iter.routes msg (routeMessage { b with input := { b.input with buf := rest } } msg))
    | Case.ctxDone => some (Iter.returns b)
    | Case.done => some (Iter.returns b)
  else none

/-- How an execution of `Run` under a schedule ends. -/
inductive Outcome where
  | returned (routed : List Message) (b : Broker)
  | running (routed : List Message) (b : Broker)
  | notReady

/-- The messages passed to `routeMessage` so far. -/
def Outcome.addRouted (msg : Message) : Outcome → Outcome
  | Outcome.returned routed b => Outcome.returned (msg :: routed) b
  | Outcome.running routed b => Outcome.running (msg :: routed) b
  | Outcome.notReady => Outcome.notReady

/-- The method `Run` under a schedule, the cases its `select` takes in
turn.  `returned` gives the messages passed to `routeMessage`, in order, and
the state in which `Run` returns; `running` is the loop still going when the
schedule ends; `notReady` is a schedule that names a case which is not
ready. -/
def Run : Broker → List Case → Outcome
  | b, [] => Outcome.running [] b
  | b, c :: rest =>
    match iterate b c with
    | none => Outcome.notReady
    | some (Iter.returns b') => Outcome.returned [] b'
    | some (Iter.routes msg b') => (Run b' rest).addRouted msg

/-- Whether the execution ended with `Run` returning. -/
def Outcome.hasReturned : Outcome → Bool
  | Outcome.returned _ _ => true
  | _ => false

/-- The messages the execution passed to `routeMessage`, in order. -/
def Outcome.routed : Outcome → List Message
  | Outcome.returned routed _ => routed
  | Outcome.running routed _ => routed
  | Outcome.notReady => []

/-- The state the execution ended in. -/
def Outcome.state : Outcome → Option Broker
  | Outcome.returned _ b => some b
  | Outcome.running _ b => some b
  | Outcome.notReady => none

/-- The calls `RegisterUser(c.1, c.2)` for the `c` of a list, in order. -/
def registerAll (b : Broker) (calls : List (String × ChanRef)) : Broker :=
  calls.foldl (fun acc c => RegisterUser acc c.1 c.2) b

/-- The store in which every channel is `make(chan Message, n)`. -/
def freshStore (n : Nat) : Store := fun _ => makeChan n

/-- A private message from `A` to `B`. -/
def hiMsg : Message :=
  { Sender := "A", Recipient := "B", Content := "hi", Broadcast := false, Timestamp := 1 }

/-- A broadcast message from `A`. -/
def allMsg : Message :=
  { Sender := "A", Recipient := "", Content := "all", Broadcast := true, Timestamp := 2 }

/-- A broker from `NewBroker` whose input queue holds 100 messages. -/
def fullBroker : Broker :=
  { NewBroker none (freshStore 1) with input := { buf := List.replicate 100 hiMsg, cap := 100 } }

/-- The number of entries of the registry that hold the channel at `a`. -/
def copies (users : Registry) (a : Nat) : Nat := (users.map Prod.snd).count (some a)

/-- The room left in a channel. -/
def Chan.room (c : Chan) : Nat := c.cap - c.buf.length

/-- The scenario of two consumers: `A` holds the channel at 0, of capacity 2
and empty, `B` the channel at 1, of capacity 1 and full. -/
def abBroker : Broker :=
  { NewBroker none (fun a => if a = 0 then makeChan 2 else { buf := [hiMsg], cap := 1 }) with
    users := [("A", some 0), ("B", some 1)] }

/-- The scenario `abBroker` visited in the other order and with the channel
of `B` empty. -/
def baBroker : Broker :=
  { NewBroker none (fun a => if a = 0 then makeChan 2 else makeChan 1) with
    users := [("B", some 1), ("A", some 0)] }

/-- Two identities registered with one channel, of capacity 1 and empty. -/
def sharedBroker : Broker :=
  { NewBroker none (freshStore 1) with users := [("A", some 0), ("B", some 0)] }

/-- The channel at `a` in the state the execution ended in. -/
def Outcome.chan (o : Outcome) (a : Nat) : Option Chan := o.state.map (fun b => b.chans a)

/-- The scenario `baBroker` after the context has been cancelled with one
private message to `B` still in the input queue. -/
def cancelledBroker : Broker :=
  { baBroker with ctx := some GoError.Canceled, input := { buf := [hiMsg], cap := 100 } }

/-- Two identities registered, by `RegisterUser`, with one channel, of
capacity 2 and empty. -/
def sharedWideBroker : Broker :=
  registerAll (NewBroker none (freshStore 2)) [("A", some 0), ("B", some 0)]

/-- What happens to a broker whose registrations are fixed: a producer
calls `SendMessage`, with the choice of its second `select`; the loop of
`Run` runs one iteration that receives from `input`; a consumer receives
from the channel at an address. -/
inductive Event where
  | publish (pick : Bool) (msg : Message)
  | route
  | receive (a : Nat)

/-- The record of an execution: the messages `SendMessage` returned nil
for; the messages passed to `routeMessage`; each of these with the store it
was routed in; for each channel, the messages that the calls of
`routeMessage` appended to it and the number of messages its consumer
received from it; and the state. -/
structure Trace where
  admitted : List Message
  routed : List Message
  log : List (Message × Store)
  appended : Nat → List Message
  received : Nat → Nat
  state : Broker

/-- One event.  An iteration that finds `input` empty waits, and so does a
consumer that finds its channel empty: nothing happens.  What a call of
`routeMessage` appended to a channel is what the channel holds after the
call beyond what it held before. -/
def Trace.step (t : Trace) : Event → Trace
  | Event.publish pick msg =>
    match SendMessage pick t.state msg with
    | (none, b) => { t with admitted := t.admitted ++ [msg], state := b }
    | (some _, b) => { t with state := b }
  | Event.route =>
    match iterate t.state Case.input with
    | some (Iter.routes msg b) =>
      { t with
        routed := t.routed ++ [msg],
        log := t.log ++ [(msg, t.state.chans)],
        appended := fun a =>
          t.appended a ++ (b.chans a).buf.drop (t.state.chans a).buf.length,
        state := b }
    | _ => t
  | Event.receive a =>
    match (t.state.chans a).buf with
    | [] => t
    | _ :: rest =>
      { t with
        received := Function.update t.received a (t.received a + 1),
        state :=
          { t.state with
            chans := Function.update t.state.chans a { t.state.chans a with buf := rest } } }

/-- The events of a list, in order, from the record `t`. -/
def Trace.play (t : Trace) (events : List Event) : Trace := events.foldl Trace.step t

/-- The execution of a list of events from the state `b`. -/
def play (b : Broker) (events : List Event) : Trace :=
  Trace.play
    { admitted := [], routed := [], log := [], appended := fun _ => [], received := fun _ => 0,
      state := b } events

/-- Whether the channel at `a` is a target of the message: for a broadcast,
some identity is registered with it; for a private message, the recipient
is. -/
def isTarget (users : Registry) (msg : Message) (a : Nat) : Bool :=
  if msg.Broadcast then decide (0 < copies users a)
  else decide (lookup users msg.Recipient = some (some a))

/-- The number of copies of a message due to the channel at `a` when the
message is routed in the store `chans`: for a broadcast, one for each
identity registered with the channel, as far as the channel has room; for a
private message, one if the channel is the target and has room. -/
def hits (users : Registry) (chans : Store) (msg : Message) (a : Nat) : Nat :=
  if msg.Broadcast then min (copies users a) (chans a).room
  else if isTarget users msg a && (chans a).canSend then 1 else 0

/-- The messages due to the channel at `a` from a log of routed messages,
each with the store it was routed in. -/
def delivered (users : Registry) (a : Nat) : List (Message × Store) → List Message
  | [] => []
  | (msg, chans) :: rest => List.replicate (hits users chans msg a) msg ++ delivered users a rest

/-- What the events keep true of a record started in the state `b`. -/
def Trace.Ordered (b : Broker) (t : Trace) : Prop :=
  t.routed ++ t.state.input.buf = b.input.buf ++ t.admitted ∧
    t.state.users = b.users ∧
    t.log.map Prod.fst = t.routed ∧
    ∀ a, t.appended a = delivered b.users a t.log ∧
      t.received a ≤ ((b.chans a).buf ++ t.appended a).length ∧
      (t.state.chans a).buf = ((b.chans a).buf ++ t.appended a).drop (t.received a)

/-- The scenario `baBroker` with three messages published, the private one
and two broadcasts; the loop routes the first two, `B` receives one, the
loop routes the third. -/
def gapEvents : List Event :=
  [Event.publish true hiMsg, Event.publish true allMsg, Event.publish false allMsg, Event.route,
    Event.route, Event.receive 1, Event.route]

/-- A broker whose context has fired because its deadline expired. -/
def expiredBroker : Broker := NewBroker (some GoError.DeadlineExceeded) (freshStore 1)

/-- What can happen to a broker between `NewBroker` and now: a call of
`SendMessage`, with the choice of its second `select`; a call of
`RegisterUser` or of `UnregisterUser`; one iteration of the loop of `Run`
that takes a case of its `select`; the context firing with an error; a
consumer receiving from the channel at an address. -/
inductive Op where
  | send (pick : Bool) (msg : Message)
  | register (userID : String) (recv : ChanRef)
  | unregister (userID : String)
  | loop (c : Case)
  | cancel (err : GoError)
  | receive (a : Nat)

/-- The state after one operation.  An iteration whose case is not ready
does not happen; a context that has fired keeps its error; a receive takes
the oldest message of the channel, if there is one. -/
def Op.apply (b : Broker) : Op → Broker
  | Op.send pick msg => (SendMessage pick b msg).2
  | Op.register userID recv => RegisterUser b userID recv
  | Op.unregister userID => UnregisterUser b userID
  | Op.loop c =>
    match iterate b c with
    | some (Iter.routes _ b') => b'
    | some (Iter.returns b') => b'
    | none => b
  | Op.cancel err =>
    match b.ctx with
    | none => { b with ctx := some err }
    | some _ => b
  | Op.receive a =>
    { b with chans := Function.update b.chans a { b.chans a with buf := (b.chans a).buf.tail } }

/-- The state reached from `b` by a sequence of operations. -/
def reach (b : Broker) (ops : List Op) : Broker := ops.foldl Op.apply b

/-- The store holds channels: each holds at most its capacity. -/
def Store.bounded (chans : Store) : Prop := ∀ a, (chans a).buf.length ≤ (chans a).cap

/-- The capacity invariant of a broker made over the store `chans`. -/
def Broker.bounded (chans : Store) (b : Broker) : Prop :=
  b.input.cap = 100 ∧ b.input.buf.length ≤ 100 ∧
    (∀ a, (b.chans a).buf.length ≤ (b.chans a).cap) ∧
    (∀ a, (b.chans a).cap = (chans a).cap)

/-- A run of the scenario of two consumers: both register, three messages
are published, the loop routes two of them, `B` receives one, the context
is cancelled, `A` unregisters. -/
def busyOps : List Op :=
  [Op.register "A" (some 0), Op.register "B" (some 1), Op.send true hiMsg, Op.send true allMsg,
    Op.send false allMsg, Op.loop Case.input, Op.loop Case.input, Op.receive 1,
    Op.cancel GoError.Canceled, Op.unregister "A", Op.loop Case.ctxDone]

end chatcore

namespace userdomain

/-- The struct `User`; `CreatedAt` and `UpdatedAt` are clock readings. -/
structure User where
  ID : Int
  Email : String
  Name : String
  Password : String
  CreatedAt : Nat
  UpdatedAt : Nat
  deriving DecidableEq, Repr

/-- The function `unicode.IsSpace`: the white space of Latin-1 and the code
points with the property White_Space beyond it. -/
def IsSpace (c : Char) : Bool :=
  let n := c.toNat
  (9 ≤ n && n ≤ 13) || n = 32 || n = 0x85 || n = 0xA0 || n = 0x1680 ||
    (0x2000 ≤ n && n ≤ 0x200A) || n = 0x2028 || n = 0x2029 || n = 0x202F || n = 0x205F ||
    n = 0x3000

/-- The function `strings.TrimSpace`: the string without its leading and
trailing white space. -/
def TrimSpace (s : String) : String :=
  String.mk ((s.data.dropWhile IsSpace).reverse.dropWhile IsSpace).reverse

/-- The function `utf8.RuneCountInString`. -/
def RuneCountInString (s : String) : Nat := s.data.length

/-- A character class of a regular expression, as the list of its ranges. -/
abbrev CharClass := List (Char × Char)

/-- Whether a character is in a class. -/
def CharClass.has (cls : CharClass) (c : Char) : Bool :=
  cls.any (fun r => decide (r.1 ≤ c) && decide (c ≤ r.2))

/-- The method `MatchString` of a regular expression that is one character
class: some character of the string is in the class. -/
def CharClass.MatchString (cls : CharClass) (s : String) : Bool := s.data.any cls.has

/-- The class `[A-Z]`. -/
def hasUpper : CharClass := [('A', 'Z')]

/-- The class `[a-z]`. -/
def hasLower : CharClass := [('a', 'z')]

/-- The class `[0-9]`. -/
def hasNumber : CharClass := [('0', '9')]

/-- The class `[a-zA-Z0-9._%+\-]` of `emailRegex`. -/
def emailLocal : CharClass :=
  [('a', 'z'), ('A', 'Z'), ('0', '9'), ('.', '.'), ('_', '_'), ('%', '%'), ('+', '+'), ('-', '-')]

/-- The class `[a-zA-Z0-9.\-]` of `emailRegex`. -/
def emailDomain : CharClass := [('a', 'z'), ('A', 'Z'), ('0', '9'), ('.', '.'), ('-', '-')]

/-- The class `[a-zA-Z]` of `emailRegex`. -/
def emailTop : CharClass := [('a', 'z'), ('A', 'Z')]

/-- The method `MatchString` of `emailRegex`, the pattern
`^[a-zA-Z0-9._%+\-]+@[a-zA-Z0-9.\-]+\.[a-zA-Z]{2,}$`.  No class of the
pattern has the at sign, so the first part ends at the first at sign; the
last class has no dot, so the dot of the pattern is the last dot. -/
def emailRegex (s : String) : Bool :=
  let part := s.data.takeWhile (fun c => c ≠ '@')
  match s.data.dropWhile (fun c => c ≠ '@') with
  | [] => false
  | _ :: rest =>
    let top := (rest.reverse.takeWhile (fun c => c ≠ '.')).reverse
    match rest.reverse.dropWhile (fun c => c ≠ '.') with
    | [] => false
    | _ :: domain =>
      !part.isEmpty && part.all emailLocal.has && !domain.isEmpty && domain.all emailDomain.has &&
        decide (2 ≤ top.length) && top.all emailTop.has

/-- The function `ValidateEmail`: `none` is nil, `some msg` the error
`errors.New(msg)`. -/
def ValidateEmail (email : String) : Option String :=
  if email = "" then some "email cannot be empty"
  else if !emailRegex (TrimSpace email) then some "invalid email"
  else none

/-- The function `ValidateName`. -/
def ValidateName (name : String) : Option String :=
  let name := TrimSpace name
  if name = "" then some "name cannot be empty"
  else if RuneCountInString name < 2 ∨ RuneCountInString name > 50 then
    some "name should be 2-50 chars long"
  else none

/-- The function `ValidatePassword`. -/
def ValidatePassword (password : String) : Option String :=
  if RuneCountInString password < 8 then some "password should be at least 8 chars long"
  else if !hasUpper.MatchString password then
    some "password should contain at least one uppercase letter"
  else if !hasLower.MatchString password then
    some "password should contain at least one lower letter"
  else if !hasNumber.MatchString password then
    some "password should contain at least one number"
  else none

/-- The method `Validate`. -/
def User.Validate (u : User) : Option String :=
  match ValidateEmail u.Email with
  | some err => some err
  | none =>
    match ValidateName u.Name with
    | some err => some err
    | none =>
      match ValidatePassword u.Password with
      | some err => some err
      | none => none

/-- The function `NewUser`: the user and the error returned, `none` for
nil; `created` and `updated` are the two readings of `time.Now()`.  The
error wraps the error of `Validate`. -/
def NewUser (created updated : Nat) (email name password : String) :
    Option User × Option String :=
  let user : User :=
    { ID := 0, Name := name, Email := email, Password := password, CreatedAt := created,
      UpdatedAt := updated }
  match user.Validate with
  | some err => (none, some ("failed while creating a new user: " ++ err))
  | none => (some user, none)

/-- A name of 51 letters. -/
def longName : String := String.mk (List.replicate 51 'a')

end userdomain

namespace security

/-- The built-in `len` of a string: the number of bytes of its UTF-8
encoding. -/
def len (s : String) : Nat := (s.data.map Char.utf8Size).sum

/-- The method `MatchString` of `letterRegexp`, the class `[A-Za-z]`. -/
def letterRegexp (s : String) : Bool :=
  s.data.any (fun c => (decide ('A' ≤ c) && decide (c ≤ 'Z')) || (decide ('a' ≤ c) && decide (c ≤ 'z')))

/-- The method `MatchString` of `numberRegexp`, the class `[0-9]`. -/
def numberRegexp (s : String) : Bool :=
  s.data.any (fun c => decide ('0' ≤ c) && decide (c ≤ '9'))

/-- The errors of `ValidatePassword`, by what their message says. -/
inductive PasswordError where
  | tooShort
  | noLetter
  | noDigit
  deriving DecidableEq, Repr

/-- The function `ValidatePassword`. -/
def ValidatePassword (password : String) : Option PasswordError :=
  if len password < 6 then some PasswordError.tooShort
  else if !letterRegexp password then some PasswordError.noLetter
  else if !numberRegexp password then some PasswordError.noDigit
  else none

/-- A password of four characters, two of them Cyrillic letters, of two
bytes each. -/
def shortPassword : String := String.mk ['п', 'я', 'a', '1']

end security

namespace models

/-- The struct `Category`, without its times and its posts. -/
structure Category where
  ID : Nat
  Name : String
  Description : String
  Color : String
  Active : Bool
  deriving DecidableEq, Repr

/-- The error `gorm.ErrInvalidData`. -/
inductive GormError where
  | ErrInvalidData
  deriving DecidableEq, Repr

/-- The function `trimString`: the first loop passes the leading spaces,
the second the trailing ones.  The byte of a space occurs in UTF-8 only as
the space character, so the bytes passed are the space characters. -/
def trimString (s : String) : String :=
  String.mk ((s.data.dropWhile (fun c => c = ' ')).reverse.dropWhile (fun c => c = ' ')).reverse

/-- The method `BeforeUpdate`: the error returned and the category
afterwards. -/
def Category.BeforeUpdate (c : Category) : Option GormError × Category :=
  if c.Name = "" then (some GormError.ErrInvalidData, c)
  else
    let c1 := if c.Name ≠ "" then { c with Name := trimString c.Name } else c
    let c2 := if c1.Description ≠ "" then { c1 with Description := trimString c1.Description } else c1
    (none, c2)

/-- A category whose name is one space. -/
def blankCategory : Category :=
  { ID := 1, Name := " ", Description := "", Color := "#007bff", Active := true }

end models

namespace chatcore

/-! ## The publish path -/

/-- C1: on a broker whose context has not fired and whose input queue, of
capacity 100, holds fewer than 100 messages, `SendMessage` returns nil and
the input queue afterwards is the previous queue with the message appended
at the tail; nothing else of the state changes. -/
theorem SendMessage_enqueues (pick : Bool) (b : Broker) (msg : Message)
    (hctx : b.ctx = none) (hcap : b.input.cap = 100) (hlen : b.input.buf.length < 100) :
    (SendMessage pick b msg).1 = none ∧
      (SendMessage pick b msg).2.input.buf = b.input.buf ++ [msg] ∧
      (SendMessage pick b msg).2 = { b with input := { buf := b.input.buf ++ [msg], cap := 100 } } := by
  have hs : b.input.canSend = true := by
    simp [Chan.canSend, hcap, hlen]
  simp [SendMessage, hctx, hs, Chan.push, hcap]

/-- C1, on the broker that `NewBroker` builds. -/
theorem SendMessage_enqueues_witness :
    (NewBroker none (freshStore 1)).ctx = none ∧
      (NewBroker none (freshStore 1)).input.cap = 100 ∧
      (SendMessage true (NewBroker none (freshStore 1)) hiMsg).1 = none ∧
      (SendMessage true (NewBroker none (freshStore 1)) hiMsg).2.input.buf = [] ++ [hiMsg] :=
  ⟨rfl, rfl,
    (SendMessage_enqueues true (NewBroker none (freshStore 1)) hiMsg rfl rfl (by decide)).1,
    (SendMessage_enqueues true (NewBroker none (freshStore 1)) hiMsg rfl rfl (by decide)).2.1⟩

/-- C2: on a broker whose context has fired, `SendMessage` returns the
error of the context, which is not nil, and the state, the input queue in
it, is unchanged, whatever room the queue has. -/
theorem SendMessage_cancelled (pick : Bool) (b : Broker) (msg : Message) (err : GoError)
    (hctx : b.ctx = some err) :
    (SendMessage pick b msg).1 = some err ∧ (SendMessage pick b msg).1 ≠ none ∧
      (SendMessage pick b msg).2.input = b.input ∧ (SendMessage pick b msg).2 = b := by
  simp [SendMessage, hctx]

/-- C2, on a cancelled broker whose queue is empty. -/
theorem SendMessage_cancelled_witness :
    (NewBroker (some GoError.Canceled) (freshStore 1)).ctx = some GoError.Canceled ∧
      (SendMessage true (NewBroker (some GoError.Canceled) (freshStore 1)) hiMsg).1
        = some GoError.Canceled ∧
      (SendMessage true (NewBroker (some GoError.Canceled) (freshStore 1)) hiMsg).2.input.buf = [] :=
  ⟨rfl,
    (SendMessage_cancelled true (NewBroker (some GoError.Canceled) (freshStore 1)) hiMsg
      GoError.Canceled rfl).1,
    congrArg Chan.buf (SendMessage_cancelled true (NewBroker (some GoError.Canceled) (freshStore 1))
      hiMsg GoError.Canceled rfl).2.2.1⟩

/-- C3: on a broker whose context has not fired and whose input queue, of
capacity 100, holds 100 messages, `SendMessage` returns the queue-full error
`context.DeadlineExceeded`, which is not nil, and leaves the state, the
input queue in it, unchanged.  On every broker whose context has not fired,
it returns nil exactly when it has enqueued the message, and a non-nil error
exactly when the queue is unchanged. -/
theorem SendMessage_queue_full (pick : Bool) (b : Broker) (msg : Message)
    (hctx : b.ctx = none) :
    (b.input.cap = 100 → b.input.buf.length = 100 →
      (SendMessage pick b msg).1 = some GoError.DeadlineExceeded ∧
        (SendMessage pick b msg).1 ≠ none ∧
        (SendMessage pick b msg).2.input = b.input ∧ (SendMessage pick b msg).2 = b) ∧
    ((SendMessage pick b msg).1 = none ↔
      (SendMessage pick b msg).2.input.buf = b.input.buf ++ [msg]) ∧
    ((SendMessage pick b msg).1 ≠ none ↔ (SendMessage pick b msg).2.input.buf = b.input.buf) := by
  refine ⟨?_, ?_, ?_⟩
  · intro hcap hlen
    have hs : b.input.canSend = false := by
      simp [Chan.canSend, hcap, hlen]
    simp [SendMessage, hctx, hs]
  · cases hs : b.input.canSend <;> simp [SendMessage, hctx, hs, Chan.push]
  · cases hs : b.input.canSend <;> simp [SendMessage, hctx, hs, Chan.push]

/-- C3, on a broker whose queue holds 100 copies of a message. -/
theorem SendMessage_queue_full_witness :
    fullBroker.ctx = none ∧ fullBroker.input.cap = 100 ∧ fullBroker.input.buf.length = 100 ∧
      (SendMessage true fullBroker allMsg).1 = some GoError.DeadlineExceeded ∧
      (SendMessage true fullBroker allMsg).2.input = fullBroker.input :=
  ⟨rfl, rfl, by simp [fullBroker],
    ((SendMessage_queue_full true fullBroker allMsg rfl).1 rfl (by simp [fullBroker])).1,
    ((SendMessage_queue_full true fullBroker allMsg rfl).1 rfl (by simp [fullBroker])).2.2.1⟩

/-! ## Routing -/

theorem sendTo_apply (chans : Store) (recvChan : ChanRef) (msg : Message) (a : Nat) :
    sendTo chans recvChan msg a = if recvChan = some a then (chans a).trySend msg else chans a := by
  cases recvChan with
  | none => simp [sendTo]
  | some a' =>
    by_cases h : a' = a
    · subst h; simp [sendTo]
    · have h' : a ≠ a' := fun e => h e.symm
      simp [sendTo, h, Function.update_noteq h']

theorem fanOut_apply (msg : Message) (users : Registry) (chans : Store) (a : Nat) :
    fanOut msg users chans a =
      { buf := (chans a).buf ++ List.replicate (min (copies users a) (chans a).room) msg,
        cap := (chans a).cap } := by
  induction users generalizing chans with
  | nil => simp [fanOut, copies]
  | cons e rest ih =>
    obtain ⟨k, r⟩ := e
    rw [fanOut, ih, sendTo_apply]
    by_cases hr : r = some a
    · subst hr
      by_cases hs : (chans a).canSend = true
      · have hlt : (chans a).buf.length < (chans a).cap := by simpa [Chan.canSend] using hs
        have hm : min (copies ((k, some a) :: rest) a) (chans a).room
            = min (copies rest a) ((chans a).room - 1) + 1 := by
          simp only [copies, Chan.room, List.map_cons, List.count_cons_self]
          omega
        simp only [if_true, Chan.trySend, hs, Chan.push, Chan.room, List.length_append,
          List.length_singleton] at hm ⊢
        rw [hm, List.replicate_succ]
        simp [Nat.sub_add_eq]
      · have hge : (chans a).cap ≤ (chans a).buf.length := by
          simpa [Chan.canSend] using hs
        have h0 : (chans a).room = 0 := by simp [Chan.room]; omega
        simp [Chan.trySend, hs, h0]
    · have hc : copies ((k, r) :: rest) a = copies rest a := by
        simp [copies, List.count_cons, hr]
      simp [hr, hc]

theorem mem_of_lookup {users : Registry} {id : String} {v : ChanRef}
    (h : lookup users id = some v) : (id, v) ∈ users := by
  induction users with
  | nil => simp [lookup] at h
  | cons e rest ih =>
    obtain ⟨k, r⟩ := e
    by_cases hk : k = id
    · simp [lookup, hk] at h
      simp [hk, h]
    · simp [lookup, hk] at h
      exact List.mem_cons_of_mem _ (ih h)

theorem lookup_of_mem {users : Registry} {id : String} {v : ChanRef}
    (hn : keysNodup users) (h : (id, v) ∈ users) : lookup users id = some v := by
  induction users with
  | nil => simp at h
  | cons e rest ih =>
    obtain ⟨k, r⟩ := e
    have hn' : k ∉ rest.map Prod.fst ∧ keysNodup rest := by
      simpa [keysNodup] using hn
    rcases List.mem_cons.1 h with h1 | h1
    · cases h1
      simp [lookup]
    · have hk : k ≠ id := by
        intro e
        exact hn'.1 (List.mem_map.2 ⟨(id, v), h1, e.symm⟩)
      simp [lookup, hk, ih hn'.2 h1]

theorem lookup_eq_none_iff (users : Registry) (id : String) :
    lookup users id = none ↔ id ∉ users.map Prod.fst := by
  induction users with
  | nil => simp [lookup]
  | cons e rest ih =>
    obtain ⟨k, r⟩ := e
    by_cases hk : k = id
    · simp [lookup, hk]
    · have hk' : ¬ id = k := fun e => hk e.symm
      simp [lookup, hk, hk', ih]

theorem copies_pos_of_lookup {users : Registry} {id : String} {a : Nat}
    (h : lookup users id = some (some a)) : 0 < copies users a := by
  unfold copies
  exact List.count_pos_iff.2 (List.mem_map.2 ⟨(id, some a), mem_of_lookup h, rfl⟩)

theorem copies_le_one {users : Registry} (hn : keysNodup users) (hd : distinctChans users)
    (a : Nat) : copies users a ≤ 1 := by
  induction users with
  | nil => simp [copies]
  | cons e rest ih =>
    obtain ⟨k, r⟩ := e
    have hn' : k ∉ rest.map Prod.fst ∧ keysNodup rest := by
      simpa [keysNodup] using hn
    have hup : ∀ i v, lookup rest i = some v → lookup ((k, r) :: rest) i = some v := by
      intro i v hi
      have hk : k ≠ i := by
        intro e
        exact hn'.1 (List.mem_map.2 ⟨(i, v), mem_of_lookup hi, e.symm⟩)
      simp [lookup, hk, hi]
    have hd' : distinctChans rest := fun i j c hi hj => hd i j c (hup _ _ hi) (hup _ _ hj)
    have ih' := ih hn'.2 hd'
    by_cases hr : r = some a
    · subst hr
      have h0 : copies rest a = 0 := by
        unfold copies
        rw [List.count_eq_zero]
        intro hmem
        obtain ⟨⟨j, v⟩, hj, hv⟩ := List.mem_map.1 hmem
        simp only at hv
        subst hv
        have hjl := hup j _ (lookup_of_mem hn'.2 hj)
        have hkl : lookup ((k, some a) :: rest) k = some (some a) := by simp [lookup]
        have := hd j k a hjl hkl
        exact hn'.1 (List.mem_map.2 ⟨(j, some a), hj, this⟩)
      simp [copies] at h0 ⊢
      simp [h0]
    · have hc : copies ((k, r) :: rest) a = copies rest a := by
        simp [copies, List.count_cons, hr]
      rw [hc]; exact ih'

theorem copies_eq_one {users : Registry} (hn : keysNodup users) (hd : distinctChans users)
    {id : String} {a : Nat} (h : lookup users id = some (some a)) : copies users a = 1 :=
  Nat.le_antisymm (copies_le_one hn hd a) (copies_pos_of_lookup h)

theorem copies_perm {users users' : Registry} (h : users.Perm users') (a : Nat) :
    copies users a = copies users' a := by
  unfold copies List.count
  exact (h.map Prod.snd).countP_eq _

/-- C4: in a registry in which distinct identities hold distinct channels,
routing a broadcast message appends exactly one copy of the message, the
message itself with its five fields, at the tail of every registered channel
whose buffer is not full; the channel registered under the sender is one of
them. -/
theorem broadcast_fan_out (b : Broker) (msg : Message) (hn : keysNodup b.users)
    (hd : distinctChans b.users) (hb : msg.Broadcast = true) :
    (∀ id a, lookup b.users id = some (some a) → (b.chans a).buf.length < (b.chans a).cap →
      (routeMessage b msg).chans a
        = { buf := (b.chans a).buf ++ [msg], cap := (b.chans a).cap }) ∧
    (∀ a, lookup b.users msg.Sender = some (some a) →
      (b.chans a).buf.length < (b.chans a).cap →
      ((routeMessage b msg).chans a).buf = (b.chans a).buf ++ [msg]) := by
  have key : ∀ id a, lookup b.users id = some (some a) →
      (b.chans a).buf.length < (b.chans a).cap →
      (routeMessage b msg).chans a
        = { buf := (b.chans a).buf ++ [msg], cap := (b.chans a).cap } := by
    intro id a hl hlt
    have h1 : min (copies b.users a) (b.chans a).room = 1 := by
      rw [copies_eq_one hn hd hl]
      simp only [Chan.room]
      omega
    simp [routeMessage, hb, fanOut_apply, h1]
  exact ⟨key, fun a hl hlt => by rw [key _ a hl hlt]⟩

/-- C4, on the two consumers of `baBroker`, the sender `A` among them. -/
theorem broadcast_fan_out_witness :
    keysNodup baBroker.users ∧ allMsg.Broadcast = true ∧
      lookup baBroker.users allMsg.Sender = some (some 0) ∧
      (routeMessage baBroker allMsg).chans 1 = { buf := [] ++ [allMsg], cap := 1 } ∧
      ((routeMessage baBroker allMsg).chans 0).buf = [] ++ [allMsg] :=
  have hn : keysNodup baBroker.users := by decide
  have hd : distinctChans baBroker.users := by
    intro i j a hi hj
    simp only [baBroker, lookup] at hi hj
    split at hi <;> split at hj <;> simp_all <;> omega
  ⟨hn, rfl, by decide,
    (broadcast_fan_out baBroker allMsg hn hd rfl).1 "B" 1 (by decide) (by decide),
    (broadcast_fan_out baBroker allMsg hn hd rfl).2 0 (by decide) (by decide)⟩

theorem trySend_of_full {c : Chan} (h : c.canSend = false) (msg : Message) :
    c.trySend msg = c := by
  simp [Chan.trySend, h]

theorem trySend_of_room {c : Chan} (h : c.buf.length < c.cap) (msg : Message) :
    c.trySend msg = { buf := c.buf ++ [msg], cap := c.cap } := by
  simp [Chan.trySend, Chan.canSend, h, Chan.push]

/-- C5: routing a message, broadcast or private, leaves every channel whose
buffer is full exactly as it was.  For a broadcast, what a channel holds
afterwards is the same in any two states whose registries have the same
entries, in whatever order they are visited, and that agree on this channel,
whatever the other channels hold; and a registered channel whose buffer is
not full receives the message. -/
theorem drop_on_full_isolated (b b' : Broker) (msg : Message) :
    (∀ a, (b.chans a).canSend = false → (routeMessage b msg).chans a = b.chans a) ∧
    (msg.Broadcast = true → b.users.Perm b'.users → ∀ a, b.chans a = b'.chans a →
      (routeMessage b msg).chans a = (routeMessage b' msg).chans a) ∧
    (msg.Broadcast = true → ∀ id a, lookup b.users id = some (some a) →
      (b.chans a).canSend = true →
      ∃ n, ((routeMessage b msg).chans a).buf = (b.chans a).buf ++ msg :: List.replicate n msg) := by
  refine ⟨?_, ?_, ?_⟩
  · intro a hfull
    have hge : (b.chans a).cap ≤ (b.chans a).buf.length := by
      simpa [Chan.canSend] using hfull
    cases hb : msg.Broadcast
    · simp only [routeMessage, hb]
      cases hl : lookup b.users msg.Recipient with
      | none => simp
      | some r =>
        simp only [Bool.false_eq_true, if_false, sendTo_apply]
        split
        · exact trySend_of_full hfull msg
        · rfl
    · have h0 : (b.chans a).room = 0 := by simp only [Chan.room]; omega
      simp [routeMessage, hb, fanOut_apply, h0]
  · intro hb hp a ha
    simp [routeMessage, hb, fanOut_apply, copies_perm hp a, ha]
  · intro hb id a hl hs
    have hlt : (b.chans a).buf.length < (b.chans a).cap := by
      simpa [Chan.canSend] using hs
    have hpos := copies_pos_of_lookup hl
    refine ⟨min (copies b.users a) (b.chans a).room - 1, ?_⟩
    have hm : min (copies b.users a) (b.chans a).room
        = (min (copies b.users a) (b.chans a).room - 1) + 1 := by
      simp only [Chan.room]; omega
    simp only [routeMessage, hb, if_true, fanOut_apply]
    rw [hm, List.replicate_succ]
    simp

/-- C5, on the scenario in which the channel of `B` is full: it is
unchanged by the broadcast, and the channel of `A` holds the same after it
as in the scenario in which `B` has room and is visited first. -/
theorem drop_on_full_isolated_witness :
    (abBroker.chans 1).canSend = false ∧
      (routeMessage abBroker allMsg).chans 1 = abBroker.chans 1 ∧
      (routeMessage abBroker allMsg).chans 0 = (routeMessage baBroker allMsg).chans 0 ∧
      (∃ n, ((routeMessage abBroker allMsg).chans 0).buf
        = (abBroker.chans 0).buf ++ allMsg :: List.replicate n allMsg) :=
  ⟨by decide,
    (drop_on_full_isolated abBroker baBroker allMsg).1 1 (by decide),
    (drop_on_full_isolated abBroker baBroker allMsg).2.1 rfl (List.Perm.swap _ _ _) 0 rfl,
    (drop_on_full_isolated abBroker baBroker allMsg).2.2 rfl "A" 0 (by decide) (by decide)⟩

/-- C6, as stated, fails: with `A` and `B` registered with the same
channel, which has room, the private message to `B` changes the contents of
the channel registered under the other identity `A`. -/
theorem shared_channel_leak :
    hiMsg.Broadcast = false ∧
      lookup sharedBroker.users hiMsg.Recipient = some (some 0) ∧
      (sharedBroker.chans 0).buf.length < (sharedBroker.chans 0).cap ∧
      "A" ≠ hiMsg.Recipient ∧
      lookup sharedBroker.users "A" = some (some 0) ∧
      ((routeMessage sharedBroker hiMsg).chans 0).buf = [hiMsg] ∧
      ((routeMessage sharedBroker hiMsg).chans 0).buf ≠ (sharedBroker.chans 0).buf := by
  refine ⟨rfl, by decide, by decide, by decide, by decide, by decide, by decide⟩

/-- C6, amended: routing a private message whose recipient is registered
with a channel that has room appends exactly that message to the channel of
the recipient and leaves every other channel unchanged; so the channel
registered under another identity is unchanged whenever it is another
channel, as it always is in a registry in which distinct identities hold
distinct channels. -/
theorem private_delivery (b : Broker) (msg : Message) (r : Nat)
    (hb : msg.Broadcast = false) (hl : lookup b.users msg.Recipient = some (some r))
    (hs : (b.chans r).buf.length < (b.chans r).cap) :
    (routeMessage b msg).chans r = { buf := (b.chans r).buf ++ [msg], cap := (b.chans r).cap } ∧
    (∀ a, a ≠ r → (routeMessage b msg).chans a = b.chans a) ∧
    (distinctChans b.users → ∀ id a, id ≠ msg.Recipient → lookup b.users id = some (some a) →
      (routeMessage b msg).chans a = b.chans a) := by
  have hne : ∀ a, a ≠ r → (routeMessage b msg).chans a = b.chans a := by
    intro a ha
    have : ¬ r = a := fun e => ha e.symm
    simp [routeMessage, hb, hl, sendTo_apply, this]
  refine ⟨?_, hne, ?_⟩
  · simp [routeMessage, hb, hl, sendTo_apply, trySend_of_room hs]
  · intro hd id a hid hla
    apply hne
    intro e
    subst e
    exact hid (hd _ _ _ hla hl)

/-- C6 amended, on the scenario `baBroker`: the message to `B` reaches the
channel of `B` and the channel of `A` stays empty. -/
theorem private_delivery_witness :
    hiMsg.Broadcast = false ∧ lookup baBroker.users hiMsg.Recipient = some (some 1) ∧
      (routeMessage baBroker hiMsg).chans 1 = { buf := [] ++ [hiMsg], cap := 1 } ∧
      (routeMessage baBroker hiMsg).chans 0 = baBroker.chans 0 :=
  ⟨rfl, by decide,
    (private_delivery baBroker hiMsg 1 rfl (by decide) (by decide)).1,
    (private_delivery baBroker hiMsg 1 rfl (by decide) (by decide)).2.1 0 (by decide)⟩

/-- C7: for a private message whose recipient is not a key of the registry,
`SendMessage` on a broker whose context has not fired and whose queue has
room returns nil, and routing the message leaves the whole state, the
delivery channels and the registry in it, unchanged; `routeMessage` has no
error to return. -/
theorem unknown_recipient_silent (pick : Bool) (b : Broker) (msg : Message)
    (hb : msg.Broadcast = false) (hu : msg.Recipient ∉ b.users.map Prod.fst) :
    (b.ctx = none → b.input.buf.length < b.input.cap → (SendMessage pick b msg).1 = none) ∧
    routeMessage b msg = b ∧
    (∀ a, (routeMessage b msg).chans a = b.chans a) ∧
    (routeMessage b msg).users = b.users := by
  have hl : lookup b.users msg.Recipient = none := (lookup_eq_none_iff _ _).2 hu
  have hr : routeMessage b msg = b := by simp [routeMessage, hb, hl]
  refine ⟨?_, hr, fun a => by rw [hr], by rw [hr]⟩
  intro hctx hlt
  have hs : b.input.canSend = true := by simpa [Chan.canSend] using hlt
  simp [SendMessage, hctx, hs]

/-- C7, on a fresh broker, whose registry is empty. -/
theorem unknown_recipient_silent_witness :
    hiMsg.Broadcast = false ∧
      hiMsg.Recipient ∉ (NewBroker none (freshStore 1)).users.map Prod.fst ∧
      (SendMessage true (NewBroker none (freshStore 1)) hiMsg).1 = none ∧
      (routeMessage (NewBroker none (freshStore 1)) hiMsg).users = [] :=
  ⟨rfl, by simp [NewBroker],
    (unknown_recipient_silent true (NewBroker none (freshStore 1)) hiMsg rfl
      (by simp [NewBroker])).1 rfl (by decide),
    (unknown_recipient_silent true (NewBroker none (freshStore 1)) hiMsg rfl
      (by simp [NewBroker])).2.2.2⟩

/-! ## The registry -/

theorem lookup_assign (users : Registry) (id : String) (recv : ChanRef) (j : String) :
    lookup (assign users id recv) j = if j = id then some recv else lookup users j := by
  induction users with
  | nil =>
    by_cases h : id = j
    · simp [assign, lookup, h]
    · have h' : ¬ j = id := fun e => h e.symm
      simp [assign, lookup, h, h']
  | cons e rest ih =>
    obtain ⟨k, v⟩ := e
    by_cases hk : k = id
    · subst hk
      by_cases h : k = j
      · simp [assign, lookup, h]
      · have h' : ¬ j = k := fun e => h e.symm
        simp [assign, lookup, h, h']
    · by_cases h : k = j
      · subst h
        simp [assign, lookup, hk]
      · simp [assign, lookup, hk, h, ih]

theorem keys_assign (users : Registry) (id : String) (recv : ChanRef) (j : String) :
    j ∈ (assign users id recv).map Prod.fst ↔ j = id ∨ j ∈ users.map Prod.fst := by
  rw [← not_iff_not, ← lookup_eq_none_iff, lookup_assign, not_or, ← lookup_eq_none_iff]
  by_cases h : j = id <;> simp [h]

theorem keysNodup_assign {users : Registry} (hn : keysNodup users) (id : String)
    (recv : ChanRef) : keysNodup (assign users id recv) := by
  induction users with
  | nil => simp [assign, keysNodup]
  | cons e rest ih =>
    obtain ⟨k, v⟩ := e
    have hn' : k ∉ rest.map Prod.fst ∧ keysNodup rest := by
      simpa [keysNodup] using hn
    by_cases hk : k = id
    · subst hk
      simpa [assign, keysNodup] using hn
    · have hnot : k ∉ (assign rest id recv).map Prod.fst := by
        rw [keys_assign]
        exact fun h => h.elim hk hn'.1
      have := ih hn'.2
      simp only [assign, hk, if_false, keysNodup, List.map_cons, List.nodup_cons]
      exact ⟨hnot, this⟩

theorem registerAll_append (b : Broker) (pre post : List (String × ChanRef)) :
    registerAll b (pre ++ post) = registerAll (registerAll b pre) post := by
  simp [registerAll, List.foldl_append]

theorem registerAll_cons (b : Broker) (c : String × ChanRef) (post : List (String × ChanRef)) :
    registerAll b (c :: post) = registerAll (RegisterUser b c.1 c.2) post := rfl

theorem registerAll_chans (b : Broker) (calls : List (String × ChanRef)) :
    (registerAll b calls).chans = b.chans := by
  induction calls generalizing b with
  | nil => rfl
  | cons c rest ih => rw [registerAll_cons, ih]; rfl

theorem registerAll_keysNodup (b : Broker) (calls : List (String × ChanRef))
    (hn : keysNodup b.users) : keysNodup (registerAll b calls).users := by
  induction calls generalizing b with
  | nil => exact hn
  | cons c rest ih =>
    rw [registerAll_cons]
    exact ih _ (keysNodup_assign hn _ _)

theorem registerAll_lookup_other (b : Broker) (post : List (String × ChanRef)) (id : String)
    (hpost : ∀ c ∈ post, c.1 ≠ id) :
    lookup (registerAll b post).users id = lookup b.users id := by
  induction post generalizing b with
  | nil => rfl
  | cons c rest ih =>
    rw [registerAll_cons, ih _ (fun c' hc' => hpost c' (List.mem_cons_of_mem _ hc'))]
    have hne : ¬ id = c.1 := fun e => hpost c (List.mem_cons_self _ _) e.symm
    simp [RegisterUser, lookup_assign, hne]

/-- C8: after a sequence of calls of `RegisterUser`, the registry maps an
identity to the channel passed in the last call for that identity, and has
one entry for it; a private message routed to that identity afterwards
goes, by the non-blocking send, to that channel, which receives it when it
has room, and every other channel, those registered under the identity
before among them, is unchanged. -/
theorem register_latest_wins (b : Broker) (pre post : List (String × ChanRef)) (id : String)
    (recv : ChanRef) (hpost : ∀ c ∈ post, c.1 ≠ id) :
    lookup (registerAll b (pre ++ (id, recv) :: post)).users id = some recv ∧
    (keysNodup b.users → keysNodup (registerAll b (pre ++ (id, recv) :: post)).users) ∧
    (∀ msg, msg.Broadcast = false → msg.Recipient = id →
      (routeMessage (registerAll b (pre ++ (id, recv) :: post)) msg).chans
        = sendTo b.chans recv msg) ∧
    (∀ msg a, msg.Broadcast = false → msg.Recipient = id → recv = some a →
      (b.chans a).buf.length < (b.chans a).cap →
      ((routeMessage (registerAll b (pre ++ (id, recv) :: post)) msg).chans a).buf
        = (b.chans a).buf ++ [msg]) ∧
    (∀ msg a, msg.Broadcast = false → msg.Recipient = id → recv ≠ some a →
      (routeMessage (registerAll b (pre ++ (id, recv) :: post)) msg).chans a = b.chans a) := by
  have hl : lookup (registerAll b (pre ++ (id, recv) :: post)).users id = some recv := by
    rw [registerAll_append, registerAll_cons, registerAll_lookup_other _ _ _ hpost]
    simp [RegisterUser, lookup_assign]
  have hroute : ∀ msg, msg.Broadcast = false → msg.Recipient = id →
      (routeMessage (registerAll b (pre ++ (id, recv) :: post)) msg).chans
        = sendTo b.chans recv msg := by
    intro msg hb hr
    subst hr
    simp [routeMessage, hb, hl, registerAll_chans]
  refine ⟨hl, registerAll_keysNodup b _, hroute, ?_, ?_⟩
  · intro msg a hb hr hrecv hlt
    rw [hroute msg hb hr, sendTo_apply]
    simp [hrecv, trySend_of_room hlt]
  · intro msg a hb hr hrecv
    rw [hroute msg hb hr, sendTo_apply]
    simp [hrecv]

/-- C8, on `B` registered with the channel at 0 and then with the channel
at 1: the private message to `B` reaches the channel at 1 only. -/
theorem register_latest_wins_witness :
    lookup (registerAll (NewBroker none (freshStore 1))
        ([("B", some 0)] ++ ("B", some 1) :: [("A", some 2)])).users "B" = some (some 1) ∧
      ((routeMessage (registerAll (NewBroker none (freshStore 1))
        ([("B", some 0)] ++ ("B", some 1) :: [("A", some 2)])) hiMsg).chans 1).buf
        = [] ++ [hiMsg] ∧
      (routeMessage (registerAll (NewBroker none (freshStore 1))
        ([("B", some 0)] ++ ("B", some 1) :: [("A", some 2)])) hiMsg).chans 0
        = makeChan 1 :=
  ⟨(register_latest_wins (NewBroker none (freshStore 1)) [("B", some 0)] [("A", some 2)] "B"
      (some 1) (by decide)).1,
    (register_latest_wins (NewBroker none (freshStore 1)) [("B", some 0)] [("A", some 2)] "B"
      (some 1) (by decide)).2.2.2.1 hiMsg 1 rfl rfl rfl (by decide),
    (register_latest_wins (NewBroker none (freshStore 1)) [("B", some 0)] [("A", some 2)] "B"
      (some 1) (by decide)).2.2.2.2 hiMsg 0 rfl rfl (by decide)⟩

theorem lookup_delete (users : Registry) (u v : String) :
    lookup (delete users u) v = if v = u then none else lookup users v := by
  induction users with
  | nil => simp [delete, lookup]
  | cons e rest ih =>
    obtain ⟨k, r⟩ := e
    simp only [delete] at ih
    by_cases hk : k = u
    · subst hk
      by_cases h : k = v
      · subst h
        simpa [delete, lookup] using ih
      · have h' : ¬ v = k := fun e => h e.symm
        simpa [delete, lookup, h, h'] using ih
    · by_cases h : k = v
      · subst h
        simp [delete, lookup, hk]
      · simpa [delete, lookup, hk, h] using ih

theorem delete_of_absent (users : Registry) (u : String) (h : lookup users u = none) :
    delete users u = users := by
  rw [lookup_eq_none_iff] at h
  unfold delete
  rw [List.filter_eq_self]
  intro e he
  have : e.1 ≠ u := fun hu => h (List.mem_map.2 ⟨e, he, hu⟩)
  simpa using this

/-- C9: `UnregisterUser` of an identity that is not registered leaves the
state, the registry in it, unchanged; in every case the result has no entry
for that identity, keeps exactly the entries of the other identities, and
maps every other identity as before; applying it twice is applying it once.
The method has no error to return. -/
theorem UnregisterUser_spec (b : Broker) (u : String) :
    (lookup b.users u = none → UnregisterUser b u = b) ∧
    lookup (UnregisterUser b u).users u = none ∧
    (∀ v, v ≠ u → lookup (UnregisterUser b u).users v = lookup b.users v) ∧
    (∀ e, e ∈ (UnregisterUser b u).users ↔ e ∈ b.users ∧ e.1 ≠ u) ∧
    UnregisterUser (UnregisterUser b u) u = UnregisterUser b u := by
  refine ⟨?_, ?_, ?_, ?_, ?_⟩
  · intro h
    simp [UnregisterUser, delete_of_absent _ _ h]
  · simp [UnregisterUser, lookup_delete]
  · intro v hv
    simp [UnregisterUser, lookup_delete, hv]
  · intro e
    simp [UnregisterUser, delete]
  · simp [UnregisterUser, delete, List.filter_filter]

/-- C9, on a fresh broker, in which `B` is not registered, and on the
scenario `abBroker`, in which it is. -/
theorem UnregisterUser_spec_witness :
    lookup (NewBroker none (freshStore 1)).users "B" = none ∧
      (UnregisterUser (NewBroker none (freshStore 1)) "B").users = [] ∧
      lookup (UnregisterUser abBroker "B").users "A" = some (some 0) :=
  ⟨rfl,
    congrArg Broker.users ((UnregisterUser_spec (NewBroker none (freshStore 1)) "B").1 rfl),
    ((UnregisterUser_spec abBroker "B").2.2.1 "A" (by decide)).trans (by decide)⟩

/-! ## The event loop -/

theorem routeMessage_ctx (b : Broker) (msg : Message) : (routeMessage b msg).ctx = b.ctx := by
  unfold routeMessage
  split
  · rfl
  · split <;> rfl

theorem routeMessage_input (b : Broker) (msg : Message) :
    (routeMessage b msg).input = b.input := by
  unfold routeMessage
  split
  · rfl
  · split <;> rfl

theorem addRouted_routed (msg : Message) (o : Outcome) (h : o.state ≠ none) :
    (o.addRouted msg).routed = msg :: o.routed := by
  cases o <;> simp_all [Outcome.addRouted, Outcome.routed, Outcome.state]

theorem addRouted_hasReturned (msg : Message) (o : Outcome) :
    (o.addRouted msg).hasReturned = o.hasReturned := by
  cases o <;> rfl

theorem addRouted_state (msg : Message) (o : Outcome) : (o.addRouted msg).state = o.state := by
  cases o <;> rfl

theorem Run_routed_prefix (b : Broker) (sched : List Case) :
    (Run b sched).routed <+: b.input.buf := by
  induction sched generalizing b with
  | nil => simp [Run, Outcome.routed]
  | cons c rest ih =>
    cases c with
    | input =>
      cases hbuf : b.input.buf with
      | nil => simp [Run, iterate, ready, hbuf, Outcome.routed]
      | cons msg tl =>
        have ih' := ih (routeMessage { b with input := { b.input with buf := tl } } msg)
        rw [routeMessage_input] at ih'
        simp only [Run, iterate, ready, hbuf]
        simp only [List.isEmpty_cons, Bool.not_false, if_true]
        cases ho : Run (routeMessage { b with input := { b.input with buf := tl } } msg) rest with
        | notReady => simp [Outcome.addRouted, Outcome.routed]
        | returned tr b' =>
          rw [ho] at ih'
          simpa [Outcome.addRouted, Outcome.routed, List.prefix_cons_inj] using ih'
        | running tr b' =>
          rw [ho] at ih'
          simpa [Outcome.addRouted, Outcome.routed, List.prefix_cons_inj] using ih'
    | ctxDone =>
      by_cases h : ready b Case.ctxDone = true <;> simp [Run, iterate, h, Outcome.routed]
    | done =>
      by_cases h : ready b Case.done = true <;> simp [Run, iterate, h, Outcome.routed]

theorem Run_bounded (b : Broker) (hctx : b.ctx.isSome = true) (sched : List Case)
    (hlen : b.input.buf.length < sched.length) :
    (Run b sched).hasReturned = true ∨ (Run b sched).state = none := by
  induction sched generalizing b with
  | nil => simp at hlen
  | cons c rest ih =>
    cases c with
    | input =>
      cases hbuf : b.input.buf with
      | nil => simp [Run, iterate, ready, hbuf, Outcome.state]
      | cons msg tl =>
        have ih' := ih (routeMessage { b with input := { b.input with buf := tl } } msg)
          (by rw [routeMessage_ctx]; exact hctx)
          (by rw [routeMessage_input]; simp [hbuf] at hlen ⊢; omega)
        simp only [Run, iterate, ready, hbuf]
        simp only [List.isEmpty_cons, Bool.not_false, if_true]
        rw [addRouted_hasReturned, addRouted_state]
        exact ih'
    | ctxDone => simp [Run, iterate, ready, hctx, Outcome.hasReturned]
    | done =>
      by_cases h : ready b Case.done = true <;>
        simp [Run, iterate, h, Outcome.hasReturned, Outcome.state]

theorem Run_nothing_routed (b : Broker) (sched : List Case)
    (hr : (Run b sched).routed = []) (hret : (Run b sched).hasReturned = true) :
    Run b sched = Outcome.returned [] b := by
  cases sched with
  | nil => simp [Run, Outcome.hasReturned] at hret
  | cons c rest =>
    cases c with
    | input =>
      cases hbuf : b.input.buf with
      | nil => simp [Run, iterate, ready, hbuf, Outcome.hasReturned] at hret
      | cons msg tl =>
        simp only [Run, iterate, ready, hbuf] at hr hret
        simp only [List.isEmpty_cons, Bool.not_false, if_true] at hr hret
        rw [addRouted_hasReturned] at hret
        have hst : (Run (routeMessage { b with input := { b.input with buf := tl } } msg)
            rest).state ≠ none := by
          intro h
          cases ho : Run (routeMessage { b with input := { b.input with buf := tl } } msg) rest <;>
            simp_all [Outcome.state, Outcome.hasReturned]
        rw [addRouted_routed _ _ hst] at hr
        simp at hr
    | ctxDone =>
      by_cases h : ready b Case.ctxDone = true
      · simp [Run, iterate, h]
      · simp [Run, iterate, h, Outcome.hasReturned] at hret
    | done =>
      by_cases h : ready b Case.done = true
      · simp [Run, iterate, h]
      · simp [Run, iterate, h, Outcome.hasReturned] at hret

/-- C10, as stated, fails: with the context cancelled and a private message
to `B` in the input queue, the case that receives from `input` is ready, and
the execution of `Run` that takes it and then the case of `ctx.Done()`
returns after it has called `routeMessage` on the queued message, which is
now in the channel of `B`. -/
theorem Run_routes_after_cancel :
    cancelledBroker.ctx = some GoError.Canceled ∧
      cancelledBroker.input.buf = [hiMsg] ∧
      ready cancelledBroker Case.input = true ∧
      (Run cancelledBroker [Case.input, Case.ctxDone]).hasReturned = true ∧
      (Run cancelledBroker [Case.input, Case.ctxDone]).routed = [hiMsg] ∧
      (cancelledBroker.chans 1).buf = [] ∧
      (Run cancelledBroker [Case.input, Case.ctxDone]).chan 1
        = some { buf := [hiMsg], cap := 1 } := by
  refine ⟨rfl, rfl, by decide, by decide, by decide, by decide, by decide⟩

/-- C10, amended: once the context has fired, the case of `ctx.Done()` is
ready at every iteration, and the execution of `Run` that takes it first
returns at once, without a call of `routeMessage` and with the state, every
delivery channel in it, unchanged; every execution returns within as many
iterations as the input queue holds messages, plus one; the messages an
execution passes to `routeMessage` before it returns are a prefix of the
input queue, in order, which need not be empty; and an execution that
returns without a call of `routeMessage` returns in the state it started
in. -/
theorem Run_after_cancel (b : Broker) (hctx : b.ctx.isSome = true) :
    (∀ sched, Run b (Case.ctxDone :: sched) = Outcome.returned [] b) ∧
    (∀ sched, b.input.buf.length < sched.length →
      (Run b sched).hasReturned = true ∨ (Run b sched).state = none) ∧
    (∀ sched, (Run b sched).routed <+: b.input.buf) ∧
    (∀ sched, (Run b sched).routed = [] → (Run b sched).hasReturned = true →
      Run b sched = Outcome.returned [] b) :=
  ⟨fun sched => by simp [Run, iterate, ready, hctx],
    fun sched h => Run_bounded b hctx sched h,
    fun sched => Run_routed_prefix b sched,
    fun sched h1 h2 => Run_nothing_routed b sched h1 h2⟩

/-- C10 amended, on the cancelled broker with one queued message: the
execution that takes the case of `ctx.Done()` first routes nothing and
leaves the channel of `B` empty. -/
theorem Run_after_cancel_witness :
    cancelledBroker.ctx.isSome = true ∧
      (Run cancelledBroker [Case.ctxDone]).routed = [] ∧
      (Run cancelledBroker [Case.ctxDone]).chan 1 = some (makeChan 1) ∧
      ((Run cancelledBroker [Case.input, Case.ctxDone]).hasReturned = true ∨
        (Run cancelledBroker [Case.input, Case.ctxDone]).state = none) :=
  ⟨rfl,
    congrArg Outcome.routed ((Run_after_cancel cancelledBroker rfl).1 []),
    (congrArg (fun o => Outcome.chan o 1) ((Run_after_cancel cancelledBroker rfl).1 [])).trans rfl,
    (Run_after_cancel cancelledBroker rfl).2.1 [Case.input, Case.ctxDone] (by decide)⟩

/-! ## Order, results and frame -/

theorem routeMessage_users (b : Broker) (msg : Message) :
    (routeMessage b msg).users = b.users := by
  unfold routeMessage
  split
  · rfl
  · split <;> rfl

theorem routeMessage_chan (b : Broker) (msg : Message) (a : Nat) :
    ∃ n, n ≤ (if msg.Broadcast = true then copies b.users a else 1) ∧
      (routeMessage b msg).chans a
        = { buf := (b.chans a).buf ++ List.replicate n msg, cap := (b.chans a).cap } := by
  cases hb : msg.Broadcast
  · simp only [routeMessage, hb, Bool.false_eq_true, if_false]
    cases hl : lookup b.users msg.Recipient with
    | none => exact ⟨0, by omega, by simp⟩
    | some r =>
      simp only [sendTo_apply]
      by_cases hr : r = some a
      · by_cases hs : (b.chans a).canSend = true
        · exact ⟨1, by omega, by simp [hr, Chan.trySend, hs, Chan.push]⟩
        · exact ⟨0, by omega, by simp [hr, Chan.trySend, hs]⟩
      · exact ⟨0, by omega, by simp [hr]⟩
  · refine ⟨min (copies b.users a) (b.chans a).room, ?_, ?_⟩
    · simp only [if_true]
      exact Nat.min_le_left _ _
    · simp [routeMessage, hb, fanOut_apply]

theorem routeMessage_hits (b : Broker) (msg : Message) (a : Nat) :
    (routeMessage b msg).chans a
      = { buf := (b.chans a).buf ++ List.replicate (hits b.users b.chans msg a) msg,
          cap := (b.chans a).cap } := by
  cases hb : msg.Broadcast
  · simp only [routeMessage, hits, isTarget, hb, Bool.false_eq_true, if_false]
    cases hl : lookup b.users msg.Recipient with
    | none => simp
    | some r =>
      simp only [sendTo_apply]
      by_cases hr : r = some a
      · by_cases hs : (b.chans a).canSend = true
        · simp [hr, Chan.trySend, hs, Chan.push]
        · simp [hr, Chan.trySend, hs]
      · simp [hr]
  · simp [routeMessage, hits, hb, fanOut_apply]

theorem delivered_append (users : Registry) (a : Nat) (log : List (Message × Store))
    (msg : Message) (chans : Store) :
    delivered users a (log ++ [(msg, chans)])
      = delivered users a log ++ List.replicate (hits users chans msg a) msg := by
  induction log with
  | nil => simp [delivered]
  | cons e rest ih =>
    obtain ⟨m, st⟩ := e
    simp [delivered, ih]

theorem hits_of_unshared (users : Registry) (chans : Store) (msg : Message) (a : Nat)
    (hc : copies users a ≤ 1) :
    List.replicate (hits users chans msg a) msg
      = if isTarget users msg a && (chans a).canSend then [msg] else [] := by
  cases hb : msg.Broadcast
  · simp only [hits, hb, Bool.false_eq_true, if_false]
    split <;> simp
  · simp only [hits, isTarget, hb, if_true, Chan.room, Chan.canSend]
    by_cases h0 : 0 < copies users a
    · by_cases hr : (chans a).buf.length < (chans a).cap
      · have : min (copies users a) ((chans a).cap - (chans a).buf.length) = 1 := by omega
        simp [this, h0, hr]
      · have : min (copies users a) ((chans a).cap - (chans a).buf.length) = 0 := by omega
        simp [this, hr]
    · have : min (copies users a) ((chans a).cap - (chans a).buf.length) = 0 := by omega
      simp [this, h0]

theorem delivered_of_unshared (users : Registry) (a : Nat) (log : List (Message × Store))
    (hc : copies users a ≤ 1) :
    delivered users a log
      = (log.filter (fun e => isTarget users e.1 a && (e.2 a).canSend)).map Prod.fst := by
  induction log with
  | nil => simp [delivered]
  | cons e rest ih =>
    obtain ⟨m, st⟩ := e
    rw [delivered, hits_of_unshared users st m a hc, ih]
    by_cases h : (isTarget users m a && (st a).canSend) = true
    · simp [h, List.filter_cons]
    · simp [h, List.filter_cons]

theorem Trace.step_ordered (b : Broker) (t : Trace) (e : Event)
    (h : Trace.Ordered b t) : Trace.Ordered b (t.step e) := by
  obtain ⟨h1, h2, h3, h4⟩ := h
  cases e with
  | publish pick msg =>
    cases hctx : t.state.ctx with
    | some err =>
      have : SendMessage pick t.state msg = (some err, t.state) := by simp [SendMessage, hctx]
      simp only [Trace.step, this]
      exact ⟨h1, h2, h3, h4⟩
    | none =>
      cases hs : t.state.input.canSend
      · have : SendMessage pick t.state msg = (some GoError.DeadlineExceeded, t.state) := by
          simp [SendMessage, hctx, hs]
        simp only [Trace.step, this]
        exact ⟨h1, h2, h3, h4⟩
      · have : SendMessage pick t.state msg
            = (none, { t.state with input := t.state.input.push msg }) := by
          simp [SendMessage, hctx, hs]
        simp only [Trace.step, this]
        refine ⟨?_, h2, h3, h4⟩
        simp only [Chan.push]
        rw [← List.append_assoc, h1, List.append_assoc]
  | route =>
    cases hbuf : t.state.input.buf with
    | nil =>
      have : iterate t.state Case.input = none := by simp [iterate, ready, hbuf]
      simp only [Trace.step, this]
      exact ⟨h1, h2, h3, h4⟩
    | cons msg rest =>
      have hstep : ∃ S, iterate t.state Case.input = some (Iter.routes msg S) ∧
          S.input.buf = rest ∧ S.users = t.state.users ∧
          ∀ a, S.chans a
            = { buf := (t.state.chans a).buf
                  ++ List.replicate (hits t.state.users t.state.chans msg a) msg,
                cap := (t.state.chans a).cap } :=
        ⟨routeMessage { t.state with input := { t.state.input with buf := rest } } msg,
          by simp [iterate, ready, hbuf], by rw [routeMessage_input], routeMessage_users _ _,
          fun a => routeMessage_hits _ msg a⟩
      obtain ⟨S, hit, hSin, hSu, hSc⟩ := hstep
      simp only [Trace.step, hit]
      refine ⟨?_, ?_, ?_, ?_⟩
      · rw [hSin]
        simp only [List.append_assoc, List.singleton_append]
        rw [← hbuf, h1]
      · rw [hSu]
        exact h2
      · simp [h3]
      · intro a
        obtain ⟨ha, hr, hb⟩ := h4 a
        have hSbuf : (S.chans a).buf = (t.state.chans a).buf
            ++ List.replicate (hits b.users t.state.chans msg a) msg := by
          rw [hSc a, h2]
        have hdrop : List.drop (t.state.chans a).buf.length (S.chans a).buf
            = List.replicate (hits b.users t.state.chans msg a) msg := by
          rw [hSbuf, List.drop_left]
        refine ⟨?_, ?_, ?_⟩
        · show t.appended a ++ List.drop (t.state.chans a).buf.length (S.chans a).buf
            = delivered b.users a (t.log ++ [(msg, t.state.chans)])
          rw [hdrop, delivered_append, ha]
        · show t.received a ≤ ((b.chans a).buf
            ++ (t.appended a ++ List.drop (t.state.chans a).buf.length (S.chans a).buf)).length
          simp only [List.length_append] at hr ⊢
          omega
        · show (S.chans a).buf = List.drop (t.received a) ((b.chans a).buf
            ++ (t.appended a ++ List.drop (t.state.chans a).buf.length (S.chans a).buf))
          rw [hdrop, hSbuf, hb, ← List.append_assoc, List.drop_append_of_le_length hr]
  | receive a =>
    cases hbuf : (t.state.chans a).buf with
    | nil =>
      simp only [Trace.step, hbuf]
      exact ⟨h1, h2, h3, h4⟩
    | cons m rest =>
      simp only [Trace.step, hbuf]
      refine ⟨h1, h2, h3, ?_⟩
      intro a'
      obtain ⟨ha, hr, hb⟩ := h4 a'
      by_cases haa : a' = a
      · subst haa
        simp only [Function.update_same]
        rw [hbuf] at hb
        have hlen := congrArg List.length hb
        simp only [List.length_cons, List.length_drop] at hlen
        refine ⟨ha, by omega, ?_⟩
        have htail := congrArg List.tail hb
        simp only [List.tail_cons, List.tail_drop] at htail
        exact htail
      · simp only [Function.update_noteq haa]
        exact ⟨ha, hr, hb⟩

theorem Trace.play_keeps_order (b : Broker) (events : List Event) (t : Trace)
    (h : Trace.Ordered b t) : Trace.Ordered b (t.play events) := by
  induction events generalizing t with
  | nil => exact h
  | cons e rest ih => exact ih _ (Trace.step_ordered b t e h)

theorem play_ordered (b : Broker) (events : List Event) : Trace.Ordered b (play b events) :=
  Trace.play_keeps_order b events _
    ⟨by simp, rfl, rfl, fun a => ⟨rfl, Nat.zero_le _, by simp⟩⟩

/-- C11, as stated, fails: with `A` and `B` registered with the same
channel, of capacity 2, one broadcast message is admitted and routed, and
the messages appended to the channel are two copies of it, which is not a
subsequence of the admitted sequence. -/
theorem shared_channel_not_subsequence :
    (play sharedWideBroker [Event.publish true allMsg, Event.route]).admitted = [allMsg] ∧
      (play sharedWideBroker [Event.publish true allMsg, Event.route]).routed = [allMsg] ∧
      (sharedWideBroker.chans 0).buf = [] ∧
      ((play sharedWideBroker [Event.publish true allMsg, Event.route]).state.chans 0).buf
        = [allMsg, allMsg] ∧
      (play sharedWideBroker [Event.publish true allMsg, Event.route]).appended 0
        = [allMsg, allMsg] ∧
      ¬ List.Sublist
        ((play sharedWideBroker [Event.publish true allMsg, Event.route]).appended 0)
        (play sharedWideBroker [Event.publish true allMsg, Event.route]).admitted := by
  refine ⟨by decide, by decide, by decide, by decide, by decide, by decide⟩

/-- C11, amended: in every execution made of calls of `SendMessage`, of
iterations of the loop of `Run` that receive from `input` and of consumers
receiving from their channels, the registry being fixed, the messages passed
to `routeMessage`, followed by the messages still in the input queue, are
the messages of the initial queue followed by the admitted messages, in
order.  A channel holds what it held and what was appended to it, less what
its consumer received, and what was appended is, message by message in
routing order, as many copies as identities are registered with the
channel and it has room for.  So for a channel that at most one identity is
registered with, as every channel is in a registry in which distinct
identities hold distinct channels, the messages appended are exactly the
routed messages of which the channel was a target and that found room in
its buffer, in routing order: a subsequence of the routed messages, and of
the admitted ones when the queue was empty at the start, with gaps only
where the buffer was full or the channel was not a target. -/
theorem routing_is_fifo (b : Broker) (events : List Event) :
    (play b events).routed ++ (play b events).state.input.buf
      = b.input.buf ++ (play b events).admitted ∧
    (b.input.buf = [] → (play b events).state.input.buf = [] →
      (play b events).routed = (play b events).admitted) ∧
    (b.input.buf = [] → (play b events).routed <+: (play b events).admitted) ∧
    (play b events).state.users = b.users ∧
    (play b events).log.map Prod.fst = (play b events).routed ∧
    (∀ a, (play b events).appended a = delivered b.users a (play b events).log ∧
      ((play b events).state.chans a).buf
        = ((b.chans a).buf ++ (play b events).appended a).drop ((play b events).received a)) ∧
    (∀ a, copies b.users a ≤ 1 →
      (play b events).appended a
        = ((play b events).log.filter
            (fun e => isTarget b.users e.1 a && (e.2 a).canSend)).map Prod.fst ∧
      ((play b events).appended a).Sublist (play b events).routed ∧
      (b.input.buf = [] → ((play b events).appended a).Sublist (play b events).admitted)) ∧
    (keysNodup b.users → distinctChans b.users → ∀ a,
      (play b events).appended a
        = ((play b events).log.filter
            (fun e => isTarget b.users e.1 a && (e.2 a).canSend)).map Prod.fst ∧
      ((play b events).appended a).Sublist (play b events).routed ∧
      (b.input.buf = [] → ((play b events).appended a).Sublist (play b events).admitted)) := by
  obtain ⟨h1, h2, h3, h4⟩ := play_ordered b events
  have hpre : b.input.buf = [] → (play b events).routed <+: (play b events).admitted := by
    intro h0
    rw [h0, List.nil_append] at h1
    exact ⟨_, h1⟩
  have key : ∀ a, copies b.users a ≤ 1 →
      (play b events).appended a
        = ((play b events).log.filter
            (fun e => isTarget b.users e.1 a && (e.2 a).canSend)).map Prod.fst ∧
      ((play b events).appended a).Sublist (play b events).routed ∧
      (b.input.buf = [] →
        ((play b events).appended a).Sublist (play b events).admitted) := by
    intro a hc
    have heq := (h4 a).1.trans (delivered_of_unshared b.users a _ hc)
    have hsub : ((play b events).appended a).Sublist (play b events).routed := by
      rw [heq, ← h3]
      exact List.Sublist.map _ (List.filter_sublist _)
    exact ⟨heq, hsub, fun h0 => hsub.trans (hpre h0).sublist⟩
  refine ⟨h1, ?_, hpre, h2, h3, fun a => ⟨(h4 a).1, (h4 a).2.2⟩, key,
    fun hn hd a => key a (copies_le_one hn hd a)⟩
  intro h0 hq
  rw [h0, hq] at h1
  simpa using h1

/-- C11 amended, on the scenario `baBroker` and the events `gapEvents`: the
three admitted messages are routed in order; the channel of `B`, of capacity
1, is appended the private message and, after `B` has received it, the
second broadcast, with a gap at the first broadcast, which found it full;
the channel of `A` is appended the two broadcasts, with a gap at the private
message, of which it was not a target. -/
theorem routing_is_fifo_witness :
    (play baBroker gapEvents).admitted = [hiMsg, allMsg, allMsg] ∧
      (play baBroker gapEvents).routed = (play baBroker gapEvents).admitted ∧
      copies baBroker.users 1 ≤ 1 ∧
      (play baBroker gapEvents).appended 1 = [hiMsg, allMsg] ∧
      ((play baBroker gapEvents).log.filter
          (fun e => isTarget baBroker.users e.1 1 && (e.2 1).canSend)).map Prod.fst
        = [hiMsg, allMsg] ∧
      ((play baBroker gapEvents).appended 0).Sublist (play baBroker gapEvents).admitted ∧
      (play baBroker gapEvents).appended 0 = [allMsg, allMsg] ∧
      ((play baBroker gapEvents).state.chans 1).buf = [allMsg] :=
  ⟨by decide,
    (routing_is_fifo baBroker gapEvents).2.1 rfl (by decide),
    by decide,
    by decide,
    ((routing_is_fifo baBroker gapEvents).2.2.2.2.2.2.1 1 (by decide)).1.symm.trans (by decide),
    ((routing_is_fifo baBroker gapEvents).2.2.2.2.2.2.1 0 (by decide)).2.2 rfl,
    by decide,
    by decide⟩

/-- C12, as stated, fails: on a broker whose queue is full and whose
context has not fired, and on a broker whose context has fired by deadline
expiry, `SendMessage` returns the same error value,
`context.DeadlineExceeded`. -/
theorem queue_full_equals_deadline :
    fullBroker.ctx = none ∧ fullBroker.input.buf.length = fullBroker.input.cap ∧
      expiredBroker.ctx = some GoError.DeadlineExceeded ∧
      (SendMessage true fullBroker hiMsg).1 = some GoError.DeadlineExceeded ∧
      (SendMessage true expiredBroker hiMsg).1 = some GoError.DeadlineExceeded ∧
      (SendMessage true fullBroker hiMsg).1 = (SendMessage true expiredBroker hiMsg).1 := by
  refine ⟨rfl, by decide, rfl, by decide, by decide, by decide⟩

/-- C12, amended: `SendMessage` returns exactly one of nil, when the
context has not fired and the queue has room; `context.DeadlineExceeded`,
when the context has not fired and the queue is full; and the error of the
context, when it has fired.  The error for a full queue differs from the
error of a context that was cancelled explicitly, `context.Canceled`; it is
the error of a context whose deadline expired. -/
theorem SendMessage_results (pick : Bool) (b : Broker) (msg : Message) :
    (b.ctx = none → b.input.canSend = true → (SendMessage pick b msg).1 = none) ∧
    (b.ctx = none → b.input.canSend = false →
      (SendMessage pick b msg).1 = some GoError.DeadlineExceeded) ∧
    (∀ err, b.ctx = some err → (SendMessage pick b msg).1 = some err) ∧
    (∀ b', b.ctx = none → b.input.canSend = false → b'.ctx = some GoError.Canceled →
      (SendMessage pick b msg).1 ≠ (SendMessage pick b' msg).1) ∧
    (∀ b', b.ctx = none → b.input.canSend = false → b'.ctx = some GoError.DeadlineExceeded →
      (SendMessage pick b msg).1 = (SendMessage pick b' msg).1) := by
  refine ⟨?_, ?_, ?_, ?_, ?_⟩
  · intro hctx hs
    simp [SendMessage, hctx, hs]
  · intro hctx hs
    simp [SendMessage, hctx, hs]
  · intro err hctx
    simp [SendMessage, hctx]
  · intro b' hctx hs hctx'
    simp [SendMessage, hctx, hs, hctx']
  · intro b' hctx hs hctx'
    simp [SendMessage, hctx, hs, hctx']

/-- C12 amended, on the full broker and a broker whose context was
cancelled explicitly: the two errors differ. -/
theorem SendMessage_results_witness :
    fullBroker.ctx = none ∧ fullBroker.input.canSend = false ∧
      (SendMessage true fullBroker hiMsg).1 = some GoError.DeadlineExceeded ∧
      (SendMessage true fullBroker hiMsg).1 ≠ (SendMessage true cancelledBroker hiMsg).1 :=
  ⟨rfl, by decide,
    (SendMessage_results true fullBroker hiMsg).2.1 rfl (by decide),
    (SendMessage_results true fullBroker hiMsg).2.2.2.1 cancelledBroker rfl (by decide) rfl⟩

/-- C13, as stated, fails: `RegisterUser` with the nil channel returns, and
the registry it leaves maps the identity to the nil channel. -/
theorem nil_channel_is_registered :
    (RegisterUser (NewBroker none (freshStore 1)) "A" none).users = [("A", none)] ∧
      lookup (RegisterUser (NewBroker none (freshStore 1)) "A" none).users "A" = some none := by
  refine ⟨by decide, by decide⟩

/-- C13, amended: `RegisterUser` with the nil channel returns as with any
other channel and leaves the identity mapped to the nil channel, every
other identity mapped as before; the non-blocking send on the nil channel
is never ready, so routing a private message to that identity leaves the
whole state unchanged. -/
theorem RegisterUser_nil (b : Broker) (id : String) :
    lookup (RegisterUser b id none).users id = some none ∧
    (∀ j, j ≠ id → lookup (RegisterUser b id none).users j = lookup b.users j) ∧
    (∀ msg, sendTo b.chans none msg = b.chans) ∧
    (∀ msg, msg.Broadcast = false → msg.Recipient = id →
      routeMessage (RegisterUser b id none) msg = RegisterUser b id none) := by
  have hl : lookup (RegisterUser b id none).users id = some none := by
    simp [RegisterUser, lookup_assign]
  refine ⟨hl, ?_, fun _ => rfl, ?_⟩
  · intro j hj
    simp [RegisterUser, lookup_assign, hj]
  · intro msg hb hr
    subst hr
    simp [routeMessage, hb, hl, sendTo]

/-- C13 amended, on the scenario `abBroker` after `B` has been registered
again with the nil channel: the private message to `B` changes nothing. -/
theorem RegisterUser_nil_witness :
    hiMsg.Broadcast = false ∧ hiMsg.Recipient = "B" ∧
      lookup (RegisterUser abBroker "B" none).users "B" = some none ∧
      (routeMessage (RegisterUser abBroker "B" none) hiMsg).users = [("A", some 0), ("B", none)] :=
  ⟨rfl, rfl, (RegisterUser_nil abBroker "B").1,
    (congrArg Broker.users ((RegisterUser_nil abBroker "B").2.2.2 hiMsg rfl rfl)).trans
      (by decide)⟩

/-- C14, as stated, fails: with `A` and `B` registered, by two calls of
`RegisterUser`, with the same channel, of capacity 2 and empty, one call of
`routeMessage` on a broadcast message leaves two copies of it in the
channel. -/
theorem shared_channel_two_copies :
    sharedWideBroker.users = [("A", some 0), ("B", some 0)] ∧
      allMsg.Broadcast = true ∧
      sharedWideBroker.chans 0 = makeChan 2 ∧
      (routeMessage sharedWideBroker allMsg).chans 0 = { buf := [allMsg, allMsg], cap := 2 } := by
  refine ⟨by decide, rfl, by decide, by decide⟩

/-- C14, amended: one call of `routeMessage` appends to a channel copies of
the routed message only: at most one for a private message, and for a
broadcast at most as many as there are identities registered with the
channel.  So for a private message, for a channel that at most one identity
is registered with, and for every channel of a registry in which distinct
identities hold distinct channels, the channel is unchanged or holds the
previous contents followed by a single copy of the message. -/
theorem route_at_most_once (b : Broker) (msg : Message) (a : Nat) :
    (∃ n, n ≤ (if msg.Broadcast = true then copies b.users a else 1) ∧
      (routeMessage b msg).chans a
        = { buf := (b.chans a).buf ++ List.replicate n msg, cap := (b.chans a).cap }) ∧
    (msg.Broadcast = false ∨ copies b.users a ≤ 1 →
      (routeMessage b msg).chans a = b.chans a ∨
      (routeMessage b msg).chans a
        = { buf := (b.chans a).buf ++ [msg], cap := (b.chans a).cap }) ∧
    (keysNodup b.users → distinctChans b.users →
      (routeMessage b msg).chans a = b.chans a ∨
      (routeMessage b msg).chans a
        = { buf := (b.chans a).buf ++ [msg], cap := (b.chans a).cap }) := by
  have key : msg.Broadcast = false ∨ copies b.users a ≤ 1 →
      (routeMessage b msg).chans a = b.chans a ∨
      (routeMessage b msg).chans a
        = { buf := (b.chans a).buf ++ [msg], cap := (b.chans a).cap } := by
    intro h
    obtain ⟨n, hn, hch⟩ := routeMessage_chan b msg a
    have hn1 : n ≤ 1 := by
      refine le_trans hn ?_
      rcases h with h | h
      · simp [h]
      · split
        · exact h
        · exact le_refl 1
    interval_cases n
    · left
      rw [hch]
      simp
    · right
      rw [hch]
      simp
  exact ⟨routeMessage_chan b msg a, key, fun hn hd => key (Or.inr (copies_le_one hn hd a))⟩

/-- C14 amended, on the scenario `abBroker`: the broadcast leaves one copy
in the channel of `A`, registered once. -/
theorem route_at_most_once_witness :
    copies abBroker.users 0 ≤ 1 ∧
      ((routeMessage abBroker allMsg).chans 0 = abBroker.chans 0 ∨
        (routeMessage abBroker allMsg).chans 0
          = { buf := (abBroker.chans 0).buf ++ [allMsg], cap := (abBroker.chans 0).cap }) :=
  ⟨by decide, (route_at_most_once abBroker allMsg 0).2.1 (Or.inr (by decide))⟩

/-- C15: `SendMessage` is a function of the state, defined on every state
without a loop or a wait; its error and the input queue it leaves are the
same in two states with the same context and the same input queue, whatever
their registries and delivery channels, and do not depend on the choice of
the `select`; it returns nil exactly when the context has not fired and the
queue has room; and it leaves the registry and the delivery channels as
they were. -/
theorem SendMessage_ignores_consumers (pick pick' : Bool) (b b' : Broker) (msg : Message) :
    (b.ctx = b'.ctx → b.input = b'.input →
      (SendMessage pick b msg).1 = (SendMessage pick' b' msg).1 ∧
      (SendMessage pick b msg).2.input = (SendMessage pick' b' msg).2.input) ∧
    ((SendMessage pick b msg).1 = none ↔ b.ctx = none ∧ b.input.buf.length < b.input.cap) ∧
    (SendMessage pick b msg).2.users = b.users ∧
    (SendMessage pick b msg).2.chans = b.chans := by
  refine ⟨?_, ?_, ?_, ?_⟩
  · intro hctx hin
    cases hc : b'.ctx with
    | some err => simp [SendMessage, hctx, hc, hin]
    | none => cases hs : b'.input.canSend <;> simp [SendMessage, hctx, hc, hin, hs]
  · cases hc : b.ctx with
    | some err => simp [SendMessage, hc]
    | none =>
      cases hs : b.input.canSend
      · have : ¬ b.input.buf.length < b.input.cap := by simpa [Chan.canSend] using hs
        simp [SendMessage, hc, hs, this]
      · have : b.input.buf.length < b.input.cap := by simpa [Chan.canSend] using hs
        simp [SendMessage, hc, hs, this]
  · cases hc : b.ctx with
    | some err => simp [SendMessage, hc]
    | none => cases hs : b.input.canSend <;> simp [SendMessage, hc, hs]
  · cases hc : b.ctx with
    | some err => simp [SendMessage, hc]
    | none => cases hs : b.input.canSend <;> simp [SendMessage, hc, hs]

/-- C15, on a fresh broker and on the scenario `abBroker`, in which the
channel of `B` is full: the same result. -/
theorem SendMessage_ignores_consumers_witness :
    (NewBroker none (freshStore 1)).ctx = abBroker.ctx ∧
      (NewBroker none (freshStore 1)).input = abBroker.input ∧
      (abBroker.chans 1).canSend = false ∧
      (SendMessage true (NewBroker none (freshStore 1)) hiMsg).1
        = (SendMessage false abBroker hiMsg).1 ∧
      (SendMessage true (NewBroker none (freshStore 1)) hiMsg).2.input
        = (SendMessage false abBroker hiMsg).2.input :=
  ⟨rfl, rfl, by decide,
    ((SendMessage_ignores_consumers true false (NewBroker none (freshStore 1)) abBroker
      hiMsg).1 rfl rfl).1,
    ((SendMessage_ignores_consumers true false (NewBroker none (freshStore 1)) abBroker
      hiMsg).1 rfl rfl).2⟩

/-! ## Capacity and frame -/

theorem SendMessage_users (pick : Bool) (b : Broker) (msg : Message) :
    (SendMessage pick b msg).2.users = b.users := by
  cases hc : b.ctx with
  | some err => simp [SendMessage, hc]
  | none => cases hs : b.input.canSend <;> simp [SendMessage, hc, hs]

theorem SendMessage_chans (pick : Bool) (b : Broker) (msg : Message) :
    (SendMessage pick b msg).2.chans = b.chans := by
  cases hc : b.ctx with
  | some err => simp [SendMessage, hc]
  | none => cases hs : b.input.canSend <;> simp [SendMessage, hc, hs]

theorem SendMessage_input_bounded (pick : Bool) (b : Broker) (msg : Message)
    (hcap : b.input.cap = 100) (hlen : b.input.buf.length ≤ 100) :
    (SendMessage pick b msg).2.input.cap = 100 ∧
      (SendMessage pick b msg).2.input.buf.length ≤ 100 := by
  cases hc : b.ctx with
  | some err => simp [SendMessage, hc, hcap, hlen]
  | none =>
    cases hs : b.input.canSend
    · simp [SendMessage, hc, hs, hcap, hlen]
    · have hlt : b.input.buf.length < b.input.cap := by simpa [Chan.canSend] using hs
      simp only [SendMessage, hc, hs, Chan.push, List.length_append, List.length_singleton]
      omega

theorem routeMessage_bounded (b : Broker) (msg : Message) (a : Nat)
    (h : (b.chans a).buf.length ≤ (b.chans a).cap) :
    ((routeMessage b msg).chans a).buf.length ≤ ((routeMessage b msg).chans a).cap ∧
      ((routeMessage b msg).chans a).cap = (b.chans a).cap := by
  cases hb : msg.Broadcast
  · simp only [routeMessage, hb, Bool.false_eq_true, if_false]
    cases hl : lookup b.users msg.Recipient with
    | none => exact ⟨h, rfl⟩
    | some r =>
      simp only [sendTo_apply]
      by_cases hr : r = some a
      · by_cases hs : (b.chans a).canSend = true
        · have hlt : (b.chans a).buf.length < (b.chans a).cap := by
            simpa [Chan.canSend] using hs
          simp only [hr, if_true, Chan.trySend, hs, Chan.push, List.length_append,
            List.length_singleton]
          exact ⟨hlt, trivial⟩
        · simp only [hr, if_true, Chan.trySend, hs]
          exact ⟨h, rfl⟩
      · simp only [hr, if_false]
        exact ⟨h, trivial⟩
  · simp only [routeMessage, hb, if_true, fanOut_apply, List.length_append,
      List.length_replicate, Chan.room]
    exact ⟨by omega, trivial⟩

theorem Op.apply_bounded (chans : Store) (b : Broker) (op : Op)
    (h : Broker.bounded chans b) : Broker.bounded chans (Op.apply b op) := by
  obtain ⟨h1, h2, h3, h4⟩ := h
  cases op with
  | send pick msg =>
    have hin := SendMessage_input_bounded pick b msg h1 h2
    refine ⟨hin.1, hin.2, ?_, ?_⟩
    · intro a
      simp only [Op.apply, SendMessage_chans]
      exact h3 a
    · intro a
      simp only [Op.apply, SendMessage_chans]
      exact h4 a
  | register userID recv => exact ⟨h1, h2, h3, h4⟩
  | unregister userID => exact ⟨h1, h2, h3, h4⟩
  | loop c =>
    cases c with
    | input =>
      cases hbuf : b.input.buf with
      | nil =>
        have : iterate b Case.input = none := by simp [iterate, ready, hbuf]
        simp only [Op.apply, this]
        exact ⟨h1, h2, h3, h4⟩
      | cons msg rest =>
        have : iterate b Case.input = some (Iter.routes msg
            (routeMessage { b with input := { b.input with buf := rest } } msg)) := by
          simp [iterate, ready, hbuf]
        simp only [Op.apply, this]
        have hrest : rest.length ≤ 100 := by
          rw [hbuf] at h2
          simp only [List.length_cons] at h2
          omega
        refine ⟨?_, ?_, ?_, ?_⟩
        · rw [routeMessage_input]
          exact h1
        · rw [routeMessage_input]
          exact hrest
        · intro a
          exact (routeMessage_bounded { b with input := { b.input with buf := rest } } msg a
            (h3 a)).1
        · intro a
          rw [(routeMessage_bounded { b with input := { b.input with buf := rest } } msg a
            (h3 a)).2]
          exact h4 a
    | ctxDone =>
      by_cases hr : ready b Case.ctxDone = true
      · simp only [Op.apply, iterate, hr, if_true]
        exact ⟨h1, h2, h3, h4⟩
      · simp only [Op.apply, iterate, hr]
        exact ⟨h1, h2, h3, h4⟩
    | done =>
      by_cases hr : ready b Case.done = true
      · simp only [Op.apply, iterate, hr, if_true]
        exact ⟨h1, h2, h3, h4⟩
      · simp only [Op.apply, iterate, hr]
        exact ⟨h1, h2, h3, h4⟩
  | cancel err =>
    cases hc : b.ctx with
    | none =>
      simp only [Op.apply, hc]
      exact ⟨h1, h2, h3, h4⟩
    | some e =>
      simp only [Op.apply, hc]
      exact ⟨h1, h2, h3, h4⟩
  | receive a =>
    refine ⟨h1, h2, ?_, ?_⟩
    · intro a'
      by_cases ha : a' = a
      · subst ha
        simp only [Op.apply, Function.update_same, List.length_tail]
        exact le_trans (Nat.sub_le _ _) (h3 a')
      · simp only [Op.apply, Function.update_noteq ha]
        exact h3 a'
    · intro a'
      by_cases ha : a' = a
      · subst ha
        simp only [Op.apply, Function.update_same]
        exact h4 a'
      · simp only [Op.apply, Function.update_noteq ha]
        exact h4 a'

theorem reach_bounded (chans : Store) (ops : List Op) (b : Broker)
    (h : Broker.bounded chans b) : Broker.bounded chans (reach b ops) := by
  induction ops generalizing b with
  | nil => exact h
  | cons op rest ih => exact ih _ (Op.apply_bounded chans b op h)

/-- C21: `NewBroker` yields an empty input queue of capacity 100 and an
empty registry, and in every state reached from it by calls of
`SendMessage`, `RegisterUser` and `UnregisterUser`, iterations of the loop
of `Run`, the context firing and consumers receiving, over a store of
channels, the input queue has capacity 100 and holds at most 100 messages,
and every delivery channel keeps its capacity and holds at most as many
messages. -/
theorem capacity_invariant (ctx : Option GoError) (chans : Store) (hstore : Store.bounded chans)
    (ops : List Op) :
    (NewBroker ctx chans).input = { buf := [], cap := 100 } ∧
    (NewBroker ctx chans).users = [] ∧
    (reach (NewBroker ctx chans) ops).input.cap = 100 ∧
    (reach (NewBroker ctx chans) ops).input.buf.length ≤ 100 ∧
    (∀ a, ((reach (NewBroker ctx chans) ops).chans a).buf.length
      ≤ ((reach (NewBroker ctx chans) ops).chans a).cap) ∧
    (∀ a, ((reach (NewBroker ctx chans) ops).chans a).cap = (chans a).cap) := by
  have h0 : Broker.bounded chans (NewBroker ctx chans) :=
    ⟨rfl, by simp [NewBroker, makeChan], hstore, fun _ => rfl⟩
  have h := reach_bounded chans ops _ h0
  exact ⟨rfl, rfl, h.1, h.2.1, h.2.2.1, h.2.2.2⟩

/-- C21, on the run `busyOps` over a store of empty channels of capacity
1. -/
theorem capacity_invariant_witness :
    Store.bounded (freshStore 1) ∧
      (reach (NewBroker none (freshStore 1)) busyOps).input.buf.length ≤ 100 ∧
      ((reach (NewBroker none (freshStore 1)) busyOps).chans 0).buf.length
        ≤ ((reach (NewBroker none (freshStore 1)) busyOps).chans 0).cap ∧
      ((reach (NewBroker none (freshStore 1)) busyOps).chans 0).buf = [allMsg] ∧
      (reach (NewBroker none (freshStore 1)) busyOps).input.buf = [allMsg] :=
  ⟨fun _ => Nat.zero_le _,
    (capacity_invariant none (freshStore 1) (fun _ => Nat.zero_le _) busyOps).2.2.2.1,
    (capacity_invariant none (freshStore 1) (fun _ => Nat.zero_le _) busyOps).2.2.2.2.1 0,
    by decide, by decide⟩

/-- C22: `routeMessage` leaves the registry and the input queue as they
were; `SendMessage` leaves the registry and every delivery channel as they
were; `RegisterUser` and `UnregisterUser` leave the input queue, every
delivery channel and the mapping of every other identity as they were.
None of them touches the context or the channel `done`. -/
theorem operations_frame (pick : Bool) (b : Broker) (msg : Message) (u : String)
    (c : ChanRef) :
    ((routeMessage b msg).users = b.users ∧ (routeMessage b msg).input = b.input) ∧
    ((SendMessage pick b msg).2.users = b.users ∧
      (SendMessage pick b msg).2.chans = b.chans ∧
      ∀ a, (SendMessage pick b msg).2.chans a = b.chans a) ∧
    ((RegisterUser b u c).input = b.input ∧ (RegisterUser b u c).chans = b.chans ∧
      ∀ v, v ≠ u → lookup (RegisterUser b u c).users v = lookup b.users v) ∧
    ((UnregisterUser b u).input = b.input ∧ (UnregisterUser b u).chans = b.chans ∧
      ∀ v, v ≠ u → lookup (UnregisterUser b u).users v = lookup b.users v) ∧
    ((routeMessage b msg).ctx = b.ctx ∧ (routeMessage b msg).done = b.done ∧
      (RegisterUser b u c).ctx = b.ctx ∧ (UnregisterUser b u).ctx = b.ctx) := by
  refine ⟨⟨routeMessage_users b msg, routeMessage_input b msg⟩,
    ⟨SendMessage_users pick b msg, SendMessage_chans pick b msg,
      fun a => by rw [SendMessage_chans]⟩,
    ⟨rfl, rfl, ?_⟩, ⟨rfl, rfl, ?_⟩, ⟨routeMessage_ctx b msg, ?_, rfl, rfl⟩⟩
  · intro v hv
    simp [RegisterUser, lookup_assign, hv]
  · intro v hv
    simp [UnregisterUser, lookup_delete, hv]
  · unfold routeMessage
    split
    · rfl
    · split <;> rfl

/-- C22, on the scenario `abBroker`: registering `B` again, or
unregistering it, leaves the mapping of `A`, and routing the broadcast
leaves the registry. -/
theorem operations_frame_witness :
    lookup (RegisterUser abBroker "B" (some 2)).users "A" = some (some 0) ∧
      lookup (UnregisterUser abBroker "B").users "A" = some (some 0) ∧
      (routeMessage abBroker allMsg).users = [("A", some 0), ("B", some 1)] ∧
      (SendMessage true abBroker allMsg).2.chans 1 = { buf := [hiMsg], cap := 1 } :=
  ⟨((operations_frame true abBroker allMsg "B" (some 2)).2.2.1.2.2 "A" (by decide)).trans
      (by decide),
    ((operations_frame true abBroker allMsg "B" (some 2)).2.2.2.1.2.2 "A" (by decide)).trans
      (by decide),
    (operations_frame true abBroker allMsg "B" (some 2)).1.1.trans (by decide),
    ((operations_frame true abBroker allMsg "B" (some 2)).2.1.2.2 1).trans (by decide)⟩

end chatcore

namespace userdomain

theorem CharClass.matchString_range (lo hi : Char) (s : String) :
    CharClass.MatchString [(lo, hi)] s = true ↔ ∃ c ∈ s.data, lo ≤ c ∧ c ≤ hi := by
  simp [CharClass.MatchString, CharClass.has]

/-- C16: `ValidatePassword` returns nil exactly for the passwords of at
least 8 characters that have a letter of `A` to `Z`, a letter of `a` to `z`
and a digit of `0` to `9`; for every other password it returns an error. -/
theorem ValidatePassword_nil_iff (p : String) :
    (ValidatePassword p = none ↔
      8 ≤ p.length ∧ (∃ c ∈ p.data, 'A' ≤ c ∧ c ≤ 'Z') ∧ (∃ c ∈ p.data, 'a' ≤ c ∧ c ≤ 'z') ∧
        (∃ c ∈ p.data, '0' ≤ c ∧ c ≤ '9')) ∧
    (¬ (8 ≤ p.length ∧ (∃ c ∈ p.data, 'A' ≤ c ∧ c ≤ 'Z') ∧ (∃ c ∈ p.data, 'a' ≤ c ∧ c ≤ 'z') ∧
        (∃ c ∈ p.data, '0' ≤ c ∧ c ≤ '9')) → ∃ err, ValidatePassword p = some err) := by
  have key : ValidatePassword p = none ↔
      8 ≤ p.length ∧ (∃ c ∈ p.data, 'A' ≤ c ∧ c ≤ 'Z') ∧ (∃ c ∈ p.data, 'a' ≤ c ∧ c ≤ 'z') ∧
        (∃ c ∈ p.data, '0' ≤ c ∧ c ≤ '9') := by
    rw [← CharClass.matchString_range, ← CharClass.matchString_range,
      ← CharClass.matchString_range]
    have hlen : p.length = RuneCountInString p := rfl
    rw [hlen]
    unfold ValidatePassword hasUpper hasLower hasNumber
    by_cases h8 : RuneCountInString p < 8
    · simp [h8]
    · cases hu : CharClass.MatchString [('A', 'Z')] p <;>
        cases hl : CharClass.MatchString [('a', 'z')] p <;>
        cases hd : CharClass.MatchString [('0', '9')] p <;>
        (simp [h8]; try omega)
  refine ⟨key, fun h => ?_⟩
  cases hv : ValidatePassword p with
  | none => exact absurd (key.1 hv) h
  | some err => exact ⟨err, rfl⟩

/-- C16, on a password of eight characters with the three kinds, which is
valid, and on one without a digit, which is not. -/
theorem ValidatePassword_nil_iff_witness :
    ValidatePassword "Passw0rd" = none ∧ (∃ err, ValidatePassword "Password" = some err) :=
  ⟨(ValidatePassword_nil_iff "Passw0rd").1.2 (by decide),
    (ValidatePassword_nil_iff "Password").2 (by decide)⟩

theorem trim_decomp (p : Char → Bool) (l : List Char) :
    l = l.takeWhile p ++ ((l.dropWhile p).reverse.dropWhile p).reverse
      ++ ((l.dropWhile p).reverse.takeWhile p).reverse := by
  have h1 : l.takeWhile p ++ l.dropWhile p = l := List.takeWhile_append_dropWhile p l
  have h2 : (l.dropWhile p).reverse.takeWhile p ++ (l.dropWhile p).reverse.dropWhile p
      = (l.dropWhile p).reverse := List.takeWhile_append_dropWhile p _
  have h3 : l.dropWhile p = ((l.dropWhile p).reverse.dropWhile p).reverse
      ++ ((l.dropWhile p).reverse.takeWhile p).reverse := by
    rw [← List.reverse_append, h2, List.reverse_reverse]
  rw [List.append_assoc, ← h3, h1]

theorem trim_head (p : Char → Bool) (l : List Char) (c : Char)
    (h : (((l.dropWhile p).reverse.dropWhile p).reverse).head? = some c) : p c = false := by
  have h3 : l.dropWhile p = ((l.dropWhile p).reverse.dropWhile p).reverse
      ++ ((l.dropWhile p).reverse.takeWhile p).reverse := by
    have h2 := List.takeWhile_append_dropWhile p (l.dropWhile p).reverse
    rw [← List.reverse_append, h2, List.reverse_reverse]
  have h4 : (l.dropWhile p).head? = some c := by
    rw [h3, List.head?_append_of_ne_nil]
    · exact h
    · intro hnil
      rw [hnil] at h
      simp at h
  have := List.head?_dropWhile_not p l
  rw [h4] at this
  simpa using this

theorem trim_last (p : Char → Bool) (l : List Char) (c : Char)
    (h : (((l.dropWhile p).reverse.dropWhile p).reverse).getLast? = some c) : p c = false := by
  rw [List.getLast?_reverse] at h
  have := List.head?_dropWhile_not p (l.dropWhile p).reverse
  rw [h] at this
  simpa using this

/-- C17: `ValidateName` returns nil exactly for the names that, once their
leading and trailing white space is trimmed, have between 2 and 50
characters; a name that is empty once trimmed gets an error.  The trimmed
name is the name without a first part and a last part made of white space,
and neither starts nor ends with white space. -/
theorem ValidateName_nil_iff (name : String) :
    (ValidateName name = none ↔ 2 ≤ (TrimSpace name).length ∧ (TrimSpace name).length ≤ 50) ∧
    (TrimSpace name = "" → ValidateName name = some "name cannot be empty") ∧
    (∃ pre post, name.data = pre ++ (TrimSpace name).data ++ post ∧
      (∀ c ∈ pre, IsSpace c = true) ∧ (∀ c ∈ post, IsSpace c = true)) ∧
    (∀ c, (TrimSpace name).data.head? = some c → IsSpace c = false) ∧
    (∀ c, (TrimSpace name).data.getLast? = some c → IsSpace c = false) := by
  refine ⟨?_, ?_, ?_, ?_, ?_⟩
  · have hlen : (TrimSpace name).length = RuneCountInString (TrimSpace name) := rfl
    rw [hlen]
    unfold ValidateName
    by_cases he : TrimSpace name = ""
    · simp [he, RuneCountInString]
    · simp only [he, if_false]
      by_cases hr : RuneCountInString (TrimSpace name) < 2 ∨ RuneCountInString (TrimSpace name) > 50
      · simp only [hr, if_true]
        constructor
        · intro h; cases h
        · intro h; omega
      · simp only [hr, if_false, true_iff]
        omega
  · intro he
    simp [ValidateName, he]
  · refine ⟨name.data.takeWhile IsSpace,
      ((name.data.dropWhile IsSpace).reverse.takeWhile IsSpace).reverse, ?_, ?_, ?_⟩
    · exact trim_decomp IsSpace name.data
    · intro c hc
      exact (List.mem_takeWhile_imp hc)
    · intro c hc
      exact (List.mem_takeWhile_imp (List.mem_reverse.1 hc))
  · intro c hc
    exact trim_head IsSpace name.data c hc
  · intro c hc
    exact trim_last IsSpace name.data c hc

/-- C17, on a name of two letters between blanks, which is valid, and on a
name of blanks, which is not. -/
theorem ValidateName_nil_iff_witness :
    TrimSpace "  Al  " = "Al" ∧ ValidateName "  Al  " = none ∧ TrimSpace "   " = "" ∧
      ValidateName "   " = some "name cannot be empty" :=
  ⟨by decide, (ValidateName_nil_iff "  Al  ").1.2 (by decide), by decide,
    (ValidateName_nil_iff "   ").2.1 (by decide)⟩

/-- C18: the code at a name of 51 letters, with a valid email and a valid
password: `NewUser` returns no user and the error of `ValidateName`, though
its comment asks for names of 2 to 51 characters; a name of 50 letters is
accepted and the user carries the email, the name and the password given. -/
theorem NewUser_rejects_name_of_51 :
    longName.length = 51 ∧ TrimSpace longName = longName ∧
      ValidateEmail "user@example.com" = none ∧ ValidatePassword "Passw0rd" = none ∧
      NewUser 1 2 "user@example.com" longName "Passw0rd"
        = (none, some "failed while creating a new user: name should be 2-50 chars long") ∧
      NewUser 1 2 "user@example.com" (String.mk (List.replicate 50 'a')) "Passw0rd"
        = (some { ID := 0, Email := "user@example.com", Name := String.mk (List.replicate 50 'a'),
                  Password := "Passw0rd", CreatedAt := 1, UpdatedAt := 2 }, none) := by
  refine ⟨by decide, by decide, by decide, by decide, by decide, by decide⟩

end userdomain

namespace security

/-- C19: the code at a password of four characters, a letter and a digit
among them, whose UTF-8 encoding has six bytes: `ValidatePassword` counts
the bytes and returns nil, though its comment asks for at least 6
characters. -/
theorem ValidatePassword_accepts_four_characters :
    shortPassword.length = 4 ∧ len shortPassword = 6 ∧
      letterRegexp shortPassword = true ∧ numberRegexp shortPassword = true ∧
      ValidatePassword shortPassword = none := by
  refine ⟨by decide, by decide, by decide, by decide, by decide⟩

end security

namespace models

/-- C20: the code at a category whose name is one space: `BeforeUpdate`
returns nil and leaves the name empty, though its comment says it prevents
updating the name to the empty string. -/
theorem BeforeUpdate_blank_name :
    blankCategory.Name = " " ∧ blankCategory.BeforeUpdate.1 = none ∧
      blankCategory.BeforeUpdate.2.Name = "" ∧
      blankCategory.BeforeUpdate = (none, { blankCategory with Name := "" }) := by
  refine ⟨by decide, by decide, by decide, by decide⟩

end models
